import Mathlib

/-!
Verification of the fireant ReactTable transformation pipeline
(src/fireant/slicer/widgets/reacttable.py) and the dimension/filter
modifier wrapper (src/fireant/dataset/modifiers.py).

The Python code is shallowly embedded: pandas data frames become explicit
record structures over a scalar value type, Python dictionaries become
association lists, and operations that can raise in Python return Except.
Helpers that live outside the two source files (fireant.formats,
fireant.utils, the Pandas widget base class) are modelled from the spec
and marked as such in their doc comments.
-/

set_option maxRecDepth 4000

/-- Scalar cell and index values of a result table.  Python None and float
NaN are kept distinct because the source distinguishes the identity check
for None from the pandas null check, which treats both as null.  Floats are
embedded as rationals, with infinities as a separate constructor. -/
inductive Scalar : Type where
  | vNone
  | vNaN
  | vBool (bv : Bool)
  | vInt (n : Int)
  | vFloat (q : ℚ)
  | vInf (neg : Bool)
  | vStr (sv : String)
deriving DecidableEq

/-- The pandas null test pd.isnull: true exactly for None and NaN. -/
def pdIsNull : Scalar → Bool
  | .vNone => true
  | .vNaN => true
  | _ => false

/-- Association list lookup, first match wins.  Models a Python dict read
when the list has unique keys. -/
def alookup {α β : Type} [DecidableEq α] : List (α × β) → α → Option β
  | [], _ => Option.none
  | (k', v) :: rest, k => if k' = k then some v else alookup rest k

/-- Association list insert with Python dict semantics: an existing key is
updated in place, a new key is appended at the end. -/
def dictInsert {α β : Type} [DecidableEq α] : List (α × β) → α → β → List (α × β)
  | [], k, v => [(k, v)]
  | (k', v') :: rest, k, v =>
    if k' = k then (k', v) :: rest else (k', v') :: dictInsert rest k v

/-! ## Numeric rendering helpers (models of Python str.format) -/

/-- Decimal digit characters of a natural number, most significant first. -/
def natDigits (n : Nat) : List Char := Nat.toDigits 10 n

/-- Insert a comma after every three characters, counting from the head of
the reversed digit list.  Helper for the thousands separator. -/
def group3 : List Char → List Char
  | a :: b :: c :: d :: rest => a :: b :: c :: ',' :: group3 (d :: rest)
  | l => l

/-- Model of the Python format spec with a comma separator applied to an
integer, as in reacttable.py line 81. -/
def intThousands (n : Int) : String :=
  (if n < 0 then "-" else "") ++ String.mk ((group3 (natDigits n.natAbs).reverse).reverse)

/-- Bankers rounding of the fraction a over b (b nonzero) to the nearest
natural number, ties to even.  This is the rounding used by Python float
formatting, phrased over naturals so that it evaluates in the kernel. -/
def roundHalfEvenNat (a b : Nat) : Nat :=
  let fl := a / b
  let r := a % b
  if 2 * r < b then fl
  else if b < 2 * r then fl + 1
  else if fl % 2 = 0 then fl else fl + 1

/-- Digit characters of m, left padded with zeros to at least len digits. -/
def natDigitsPadded (m : Nat) (len : Nat) : List Char :=
  List.replicate (len - (natDigits m).length) '0' ++ natDigits m

/-- Model of fixed point float formatting, Python format spec .Nf as used
in reacttable.py line 78: the magnitude is scaled by ten to the precision,
rounded half to even, and rendered with exactly that many fractional
digits; the sign comes from the original value. -/
def formatFixed (q : ℚ) (p : Nat) : String :=
  let m : Nat := roundHalfEvenNat (q.num.natAbs * 10 ^ p) q.den
  let ds := natDigitsPadded m (p + 1)
  (if q.num < 0 then "-" else "")
    ++ String.mk (ds.take (ds.length - p))
    ++ (if p = 0 then "" else "." ++ String.mk (ds.drop (ds.length - p)))

/-- Drop trailing zero characters of a fractional rendering, keeping at
least one digit after the point. -/
def trimFracZeros (s : String) : String :=
  let r := s.data.reverse.dropWhile (· = '0')
  let r := if r.head? = some '.' then '0' :: r else r
  String.mk r.reverse

/-- Model of the Python default string conversion of a float.  Integral
values render with a trailing .0, other values as a decimal expansion with
trailing zeros trimmed.  No claim depends on its exact output. -/
def floatRepr (q : ℚ) : String :=
  if q.den = 1 then
    (if q.num < 0 then "-" else "") ++ String.mk (natDigits q.num.natAbs) ++ ".0"
  else trimFracZeros (formatFixed q 17)

/-- Model of the Python default string conversion applied to a scalar. -/
def pyStr : Scalar → String
  | .vNone => "None"
  | .vNaN => "nan"
  | .vBool bv => if bv then "True" else "False"
  | .vInt n => (if n < 0 then "-" else "") ++ String.mk (natDigits n.natAbs)
  | .vFloat q => floatRepr q
  | .vInf neg => if neg then "-inf" else "inf"
  | .vStr sv => sv

/-! ## display_value (reacttable.py lines 72 to 89) -/

/-- Embedding of the inner helper format_numeric_value of display_value.
NaN and the infinities are floats for the isinstance check, and render the
same under both the fixed point and the default conversion, so the
precision branch and the fallthrough coincide for them.  A Python bool is
an int for the isinstance check, so the bool arm formats the int value;
this arm is unreachable from display_value, which converts bools to
strings first. -/
def format_numeric_value (precision : Option Nat) : Scalar → String
  | .vFloat q =>
    match precision with
    | some p => formatFixed q p
    | Option.none => floatRepr q
  | .vNaN => "nan"
  | .vInf neg => if neg then "-inf" else "inf"
  | .vInt n => intThousands n
  | .vBool bv => intThousands (if bv then 1 else 0)
  | v => pyStr v

/-- Embedding of display_value (reacttable.py lines 72 to 89).  Booleans
are first replaced by their lowercase string form; the result is the
formatted value wrapped with the prefix and suffix, where an unset prefix
or suffix contributes the empty string. -/
def display_value (value : Scalar) (pfx sfx : Option String) (precision : Option Nat) : String :=
  let value :=
    match value with
    | .vBool bv => Scalar.vStr (if bv then "true" else "false")
    | v => v
  (pfx.getD "") ++ format_numeric_value precision value ++ (sfx.getD "")

/-! ## Modifier wrapper (modifiers.py) -/

/-- Python attribute values for the modifier model.  The obj constructor
carries the instance dictionary of a wrapped object. -/
inductive PyVal : Type where
  | null
  | intV (n : Int)
  | strV (sv : String)
  | obj (attrs : List (String × PyVal))

/-- A modifier instance: the class level slot name (wrapped_key) and the
instance dictionary.  After construction the dictionary holds the wrapped
object under the slot name (modifiers.py lines 10 to 12). -/
structure Modifier : Type where
  wrappedKey : String
  dict : List (String × PyVal)

/-- Embedding of the Modifier constructor (modifiers.py lines 10 to 12):
the wrapped object is stored in the instance dictionary under the class
declared slot name. -/
def modifier_init (wk : String) (wrapped : PyVal) : Modifier :=
  ⟨wk, [(wk, wrapped)]⟩

/-- Attribute read on a plain wrapped object: a lookup in its dictionary. -/
def objGetattr (v : PyVal) (attr : String) : Option PyVal :=
  match v with
  | .obj attrs => alookup attrs attr
  | _ => Option.none

/-- Embedding of attribute read on a modifier (modifiers.py lines 28 to
34 together with the default attribute protocol): the instance dictionary
is consulted first, and on a miss the read is forwarded to the wrapped
object found under the slot name.  A miss on both sides is the Python
AttributeError, returned as none. -/
def modifier_getattr (m : Modifier) (attr : String) : Option PyVal :=
  match alookup m.dict attr with
  | some v => some v
  | Option.none =>
    match alookup m.dict m.wrappedKey with
    | some w => objGetattr w attr
    | Option.none => Option.none

/-- Embedding of attribute write on a modifier (modifiers.py lines 36 to
48).  Writing the slot name rebinds the wrapped object; otherwise, if the
attribute already exists in the wrapped objects own dictionary the write
goes through to the wrapped object, else it is set locally on the wrapper.
The error case (missing wrapped object) models the AttributeError raised
by the lookup of the slot name. -/
def modifier_setattr (m : Modifier) (attr : String) (v : PyVal) : Option Modifier :=
  if attr = m.wrappedKey then some ⟨m.wrappedKey, dictInsert m.dict attr v⟩
  else
    match alookup m.dict m.wrappedKey with
    | some (.obj wa) =>
      if (alookup wa attr).isSome then
        some ⟨m.wrappedKey, dictInsert m.dict m.wrappedKey (.obj (dictInsert wa attr v))⟩
      else some ⟨m.wrappedKey, dictInsert m.dict attr v⟩
    | some _ => some ⟨m.wrappedKey, dictInsert m.dict attr v⟩
    | Option.none => Option.none

/-- Embedding of attribute read on a Rollup (modifiers.py lines 72 to 75):
the definition property is defined on the class, so it shadows both the
instance dictionary and the delegating fallthrough, and always produces
the pypika NullValue sentinel, modelled as PyVal.null. -/
def rollup_getattr (m : Modifier) (attr : String) : Option PyVal :=
  if attr = "definition" then some PyVal.null
  else modifier_getattr m attr

/-- The slot name declared by DimensionModifier, the base of Rollup. -/
def dimensionModifierKey : String := "dimension"

/-! ## Data frame model -/

/-- Model of a pandas data frame as used by the transform: a possibly
multi level row index (level names plus one tuple of values per row), a
possibly multi level column index, and the cell matrix.  rangeIndex marks
the default RangeIndex of a dimensionless result.  name models the pandas
Series name attribute, set when the metrics column level was collapsed for
a single metric (see reacttable.py lines 313 to 316). -/
structure Frame : Type where
  rowNames : List (Option String)
  rows : List (List Scalar)
  colNames : List (Option String)
  cols : List (List Scalar)
  data : List (List Scalar)
  rangeIndex : Bool
  name : Option String
deriving DecidableEq

/-- Modelled from the spec: format_dimension_key is imported from
fireant.utils, which is not part of this repository.  It derives the data
frame key of a dimension from its key; the exact prefix is irrelevant to
every claim, only injectivity and distinctness from metric keys matter. -/
def format_dimension_key (k : String) : String := "$d$" ++ k

/-- Modelled from the spec: format_metric_key is imported from
fireant.utils, which is not part of this repository. -/
def format_metric_key (k : String) : String := "$m$" ++ k

/-- The reserved column level name for the metrics dimension
(reacttable.py lines 44 to 45). -/
def metrics_dimension_key : String := format_dimension_key "metrics"

/-- Modelled from the spec: TOTALS_VALUE is imported from fireant.formats,
which is not part of this repository.  It is the distinguished totals
sentinel; the spec fixes no literal, only that it is one distinguished
value used consistently by headers and rows. -/
def TOTALS_VALUE : Scalar := Scalar.vStr "$totals$"

/-- Modelled from the spec: RAW_VALUE is imported from fireant.formats,
which is not part of this repository; the output contract keys every cell
dictionary by the literal raw. -/
def RAW_VALUE : Scalar := Scalar.vStr "raw"

/-- The literal display key written by transform_data (reacttable.py lines
368 and 383). -/
def DISPLAY_KEY : Scalar := Scalar.vStr "display"

/-- Embedding of fillna_index (reacttable.py lines 62 to 69).  Both source
branches, the MultiIndex rebuilt from tuples and the flat index fillna,
replace exactly the null entries of the index with the given value. -/
def fillna_index (rows : List (List Scalar)) (v : Scalar) : List (List Scalar) :=
  rows.map (fun r => r.map (fun x => if pdIsNull x then v else x))

/-- Embedding of map_index_level (reacttable.py lines 48 to 59): an empty
index is returned untouched; otherwise the values of the given level are
mapped through the function.  The source maps the unique level values of a
MultiIndex; mapping each tuple component at that position is the same
operation on the represented tuples. -/
def map_index_level (rows : List (List Scalar)) (level : Nat) (f : Scalar → Scalar) :
    List (List Scalar) :=
  if rows = [] then rows
  else rows.map (fun r => r.mapIdx (fun j x => if j = level then f x else x))

/-! ## Descriptors -/

/-- A metric or reference item as consumed by the widget: the fields of
ReferenceItem and TotalsItem (reacttable.py lines 92 to 109).  The label
is always present on both classes, so the getattr defaults in the source
never fire.  The source fields prefix and suffix are named pfx and sfx
here. -/
structure Item : Type where
  key : Scalar
  label : Scalar
  pfx : Option String
  sfx : Option String
  precision : Option Nat
deriving DecidableEq

/-- Embedding of TotalsItem (reacttable.py lines 106 to 109). -/
def TotalsItem : Item :=
  ⟨TOTALS_VALUE, Scalar.vStr "Totals", Option.none, Option.none, Option.none⟩

/-- The per dimension display value map built by map_display_values:
dimension key to a dictionary from raw value to display value. -/
abbrev DDV := List (String × List (Scalar × Scalar))

/-- Two level lookup in the display value map without a default, as in
getdeepattr(dimension_display_values, (key, value)).  Modelled from the
spec: getdeepattr lives in fireant.utils, outside this repository. -/
def ddv_lookup (ddv : DDV) (key : String) (v : Scalar) : Option Scalar :=
  match alookup ddv key with
  | some m => alookup m v
  | Option.none => Option.none

/-! ## Row records -/

/-- A value inside a row record: either a scalar or a nested dictionary.
A cell is itself a dictionary holding the raw and display keys, matching
the dictionaries built by transform_data. -/
inductive RVal : Type where
  | scalar (v : Scalar)
  | dict (entries : List (Scalar × RVal))

/-- A row record: the top level dictionary of one output row. -/
abbrev Record := List (Scalar × RVal)

/-- Nested dictionary read along a key path. -/
def getdeep : RVal → List Scalar → Option RVal
  | r, [] => some r
  | RVal.dict es, k :: rest =>
    (match alookup es k with
     | some r => getdeep r rest
     | Option.none => Option.none)
  | RVal.scalar _, _ :: _ => Option.none

/-- Modelled from the spec: setdeepattr lives in fireant.utils, outside
this repository.  It assigns a value into nested dictionaries along a key
path, creating intermediate dictionaries as needed; descending into a non
dictionary raises, and an empty path is a hard error. -/
def setdeepattr : Record → List Scalar → RVal → Except String Record
  | _, [], _ => Except.error "ValueError: empty key path"
  | es, [k], v => Except.ok (dictInsert es k v)
  | es, k :: k2 :: rest, v =>
    match alookup es k with
    | some (RVal.dict sub) =>
      (setdeepattr sub (k2 :: rest) v).map (fun sub' => dictInsert es k (RVal.dict sub'))
    | some (RVal.scalar _) => Except.error "TypeError: non mapping on key path"
    | Option.none =>
      (setdeepattr [] (k2 :: rest) v).map (fun sub' => dictInsert es k (RVal.dict sub'))

/-! ## transform_data (reacttable.py lines 329 to 389) -/

/-- The head component of a column key, as in the source expression that
takes key[0] for a tuple key and the key itself for a flat one. -/
def pyKeyHead : List Scalar → Scalar
  | [] => Scalar.vNone
  | k :: _ => k

/-- Embedding of the index value replacement of transform_data (lines 350
to 353): an index value that is a key of the item map is replaced by that
descriptor label before the row is built. -/
def relabel1 (im : List (Scalar × Item)) (item : Scalar) : Scalar :=
  match alookup im item with
  | some it => it.label
  | Option.none => item

/-- The index value replacement applied to a whole index tuple. -/
def relabel_index (im : List (Scalar × Item)) (idx : List Scalar) : List Scalar :=
  idx.map (relabel1 im)

/-- Embedding of the per index entry cell of transform_data (lines 358 to
370): raw is the (already replaced) index value, and a display entry is
attached when the display value lookup finds one that is not None. -/
def index_cell (ddv : DDV) (key : String) (v : Scalar) : RVal :=
  match ddv_lookup ddv key v with
  | some d =>
    if d = Scalar.vNone then RVal.dict [(RAW_VALUE, RVal.scalar v)]
    else RVal.dict [(RAW_VALUE, RVal.scalar v), (DISPLAY_KEY, RVal.scalar d)]
  | Option.none => RVal.dict [(RAW_VALUE, RVal.scalar v)]

/-- Embedding of the index part of a row (lines 357 to 370): the level
names are zipped with the replaced index values, unnamed levels are
skipped, and each named level contributes one cell under its name. -/
def index_row (im : List (Scalar × Item)) (ddv : DDV)
    (rowNames : List (Option String)) (idx : List Scalar) : Record :=
  (rowNames.zip (relabel_index im idx)).foldl
    (fun row p =>
      match p.1 with
      | Option.none => row
      | some key => dictInsert row (Scalar.vStr key) (index_cell ddv key p.2))
    []

/-- Embedding of the per column cell of transform_data (lines 373 to 385):
raw is the cell value; the descriptor is resolved by the first key
component; when found the display is the formatted value, otherwise the
raw value itself stands in for the display, and the display entry is
written whenever that value is not None. -/
def column_cell (im : List (Scalar × Item)) (v : Scalar) (k : List Scalar) : RVal :=
  let d : Scalar :=
    match alookup im (pyKeyHead k) with
    | some it => Scalar.vStr (display_value v it.pfx it.sfx it.precision)
    | Option.none => v
  if d = Scalar.vNone then RVal.dict [(RAW_VALUE, RVal.scalar v)]
  else RVal.dict [(RAW_VALUE, RVal.scalar v), (DISPLAY_KEY, RVal.scalar d)]

/-- One output row of transform_data: the index entries first, then every
column cell assigned along its key path. -/
def transform_row (rowNames : List (Option String)) (cols : List (List Scalar))
    (im : List (Scalar × Item)) (ddv : DDV)
    (idx : List Scalar) (vals : List Scalar) : Except String Record :=
  (cols.zip vals).foldlM
    (fun row p => setdeepattr row p.1 (column_cell im p.2 p.1))
    (index_row im ddv rowNames idx)

/-- Embedding of transform_data (reacttable.py lines 329 to 389): one
record per row of the data frame, in table order. -/
def transform_data (df : Frame) (im : List (Scalar × Item)) (ddv : DDV) :
    Except String (List Record) :=
  (df.rows.zip df.data).mapM (fun p => transform_row df.rowNames df.cols im ddv p.1 p.2)

/-! ## transform_metric_column_headers (reacttable.py lines 236 to 327) -/

/-- A ReactTable column header definition: the Header text is always
present; columns (children) are present exactly for group nodes, the
accessor exactly for leaves, and the className exactly for totals nodes
(reacttable.py lines 296 to 322). -/
inductive HNode : Type where
  | mk (header : Scalar) (accessor : Option String) (className : Option String)
       (sub : Option (List HNode))

def HNode.headerOf : HNode → Scalar
  | .mk h _ _ _ => h

def HNode.accessorOf : HNode → Option String
  | .mk _ a _ _ => a

def HNode.classNameOf : HNode → Option String
  | .mk _ _ c _ => c

def HNode.subOf : HNode → Option (List HNode)
  | .mk _ _ _ s => s

/-- Two level display lookup with the raw value as default, as in
getdeepattr(dimension_display_values, (f_dimension_key, column_value),
column_value); an unnamed level misses the dictionary and yields the
default. -/
def ddv_get (ddv : DDV) (fKey : Option String) (v : Scalar) : Scalar :=
  match fKey with
  | Option.none => v
  | some k =>
    match alookup ddv k with
    | some m => (alookup m v).getD v
    | Option.none => v

/-- Embedding of the header text helper get_header (reacttable.py lines
270 to 275): on the metrics level or for a totals value the label of the
item map entry (a missing entry is the Python KeyError); otherwise the
display value for the level and value, defaulting to the value itself. -/
def get_header (im : List (Scalar × Item)) (ddv : DDV)
    (fKey : Option String) (v : Scalar) (isTotals : Bool) : Except String Scalar :=
  if fKey = some metrics_dimension_key ∨ isTotals then
    match alookup im v with
    | some item => Except.ok item.label
    | Option.none => Except.error "KeyError: column value not in item map"
  else Except.ok (ddv_get ddv fKey v)

/-- The head of a column tuple; column tuples of a wellformed frame are
nonempty. -/
def headScalar (t : List Scalar) : Scalar := t.headD Scalar.vNone

/-- First occurrence deduplication, with an accumulator of seen values. -/
def dedupFirstAux : List Scalar → List Scalar → List Scalar
  | [], _ => []
  | x :: xs, seen => if x ∈ seen then dedupFirstAux xs seen else x :: dedupFirstAux xs (x :: seen)

def dedupFirst (l : List Scalar) : List Scalar := dedupFirstAux l []

/-- Grouping of the column tuples by their first level, as in the source
groupby(level=0): one group per distinct level value, the group holding
the remaining levels of its member tuples.  Pandas emits groups in sorted
key order; the model emits them in first occurrence order, a difference no
settled claim depends on (the set of groups and each group body agree). -/
def groupby_level0 (tuples : List (List Scalar)) : List (Scalar × List (List Scalar)) :=
  (dedupFirst (tuples.map headScalar)).map
    (fun k => (k, (tuples.filter (fun t => headScalar t = k)).map List.tail))

/-- The iteration of _make_columns over one level (reacttable.py lines 289
to 293): a MultiIndex (two or more levels) is grouped by the first level,
a flat index yields one groupless entry per column value in order. -/
def mkGroups (names : List (Option String)) (tuples : List (List Scalar)) :
    List (Scalar × Option (List (List Scalar))) :=
  if 2 ≤ names.length then (groupby_level0 tuples).map (fun p => (p.1, some p.2))
  else tuples.map (fun t => (headScalar t, Option.none))

/-- Python str.join over the accumulated level values: every component
must be a string, otherwise join raises TypeError. -/
def join_levels (levels : List Scalar) : Except String String :=
  (levels.mapM
    (fun x =>
      match x with
      | Scalar.vStr s => Except.ok s
      | _ => Except.error "TypeError: join on non string level")).map
    (String.intercalate ".")

/-- The extra leaf component contributed by the data frame name when the
metrics column level was collapsed (reacttable.py lines 313 to 316). -/
def nameLevels : Option String → List Scalar
  | some k => [Scalar.vStr k]
  | Option.none => []

/-- The loop body of _make_columns (reacttable.py lines 295 to 324),
parameterised by the recursive call for the next level.  Each group value
yields one column definition: the header from get_header, children from
the recursion for a group, the dot joined accessor (with the collapsed
metric key appended when the frame has a name) for a leaf, and the totals
class name exactly when the value is the totals sentinel. -/
def makeColsStep (im : List (Scalar × Item)) (ddv : DDV) (dfName : Option String)
    (fKey : Option String)
    (recFn : List (List Scalar) → List Scalar → Except String (List HNode)) :
    List (Scalar × Option (List (List Scalar))) → List Scalar → Except String (List HNode)
  | [], _ => Except.ok []
  | (v, g?) :: gs, prev => do
    let isTotals := v = TOTALS_VALUE
    let hdr ← get_header im ddv fKey v isTotals
    let node ←
      match g? with
      | some tails => do
        let sub ← recFn tails (prev ++ [v])
        pure (HNode.mk hdr Option.none (if isTotals then some "fireant-totals" else Option.none)
          (some sub))
      | Option.none => do
        let acc ← join_levels (prev ++ [v] ++ nameLevels dfName)
        pure (HNode.mk hdr (some acc) (if isTotals then some "fireant-totals" else Option.none)
          Option.none)
    let restCols ← makeColsStep im ddv dfName fKey recFn gs prev
    pure (node :: restCols)

/-- Embedding of _make_columns (reacttable.py lines 277 to 324), by
recursion over the column level names: the first name is the current
level, groups are formed by mkGroups, and each group recurses with that
level dropped.  An empty name list models the impossible empty column
index (pandas always carries at least one level). -/
def makeCols (im : List (Scalar × Item)) (ddv : DDV) (dfName : Option String) :
    List (Option String) → List (List Scalar) → List Scalar → Except String (List HNode) :=
  fun names =>
    List.rec
      (motive := fun _ => List (List Scalar) → List Scalar → Except String (List HNode))
      (fun _ _ => Except.error "IndexError: empty column index")
      (fun fKey rest ih => fun tuples prev =>
        makeColsStep im ddv dfName fKey ih (mkGroups (fKey :: rest) tuples) prev)
      names

/-- Embedding of transform_metric_column_headers (reacttable.py lines 236
to 327): _make_columns applied to the frame of the column index. -/
def transform_metric_column_headers (df : Frame) (im : List (Scalar × Item)) (ddv : DDV) :
    Except String (List HNode) :=
  makeCols im ddv df.name df.colNames df.cols []

/-- A leaf with the given accessor occurs somewhere in a header node. -/
inductive HasLeaf : HNode → String → Prop where
  | leaf (h : Scalar) (a : String) (c : Option String) :
      HasLeaf (HNode.mk h (some a) c Option.none) a
  | group (h : Scalar) (a? : Option String) (c : Option String) (subs : List HNode)
      (n : HNode) (a : String) : n ∈ subs → HasLeaf n a →
      HasLeaf (HNode.mk h a? c (some subs)) a

/-- A node is reachable in a header forest: it is a top level node or
reachable in the children of a reachable group node. -/
inductive Reaches : List HNode → HNode → Prop where
  | here (n : HNode) (ns : List HNode) : n ∈ ns → Reaches ns n
  | deeper (h : Scalar) (a? : Option String) (c : Option String) (subs : List HNode)
      (ns : List HNode) (n : HNode) :
      HNode.mk h a? c (some subs) ∈ ns → Reaches subs n → Reaches ns n

/-! ## Dimension descriptors and the remaining pipeline steps -/

/-- A dimension descriptor as consumed by the widget: key, label, the
optional display field, an optional literal display value table, and the
datetime classification with its interval.  Only this contract of the
external Dimension classes is consumed by the source. -/
structure Dimension : Type where
  key : String
  label : String
  hasDisplayField : Bool
  displayKey : String
  displayValues : Option (List (Scalar × Scalar))
  isDatetime : Bool
  interval : String
deriving DecidableEq

/-- The synthetic metrics dimension (reacttable.py line 44). -/
def metricsDim : Dimension :=
  ⟨"metrics", "", false, "", Option.none, false, ""⟩

/-- Embedding of transform_dimension_column_headers (reacttable.py lines
197 to 234): nothing for a RangeIndex, otherwise one simple header per
index level, resolved through the dimension map built over the selected
dimensions plus the metrics dimension; a level name with no dimension is
the Python KeyError, as is an unnamed level. -/
def transform_dimension_column_headers (df : Frame) (dims : List Dimension) :
    Except String (List HNode) :=
  let dmap := (dims ++ [metricsDim]).foldl
    (fun m d => dictInsert m (format_dimension_key d.key) d) []
  if df.rangeIndex then Except.ok []
  else
    df.rowNames.mapM
      (fun name? =>
        match name? with
        | some nm =>
          match alookup dmap nm with
          | some d => Except.ok (HNode.mk (Scalar.vStr d.label) (some nm) Option.none Option.none)
          | Option.none => Except.error "KeyError: index level is not a selected dimension"
        | Option.none => Except.error "KeyError: unnamed index level")

/-- First occurrence deduplication over index tuples. -/
def dedupTuplesAux : List (List Scalar) → List (List Scalar) → List (List Scalar)
  | [], _ => []
  | x :: xs, seen => if x ∈ seen then dedupTuplesAux xs seen else x :: dedupTuplesAux xs (x :: seen)

def dedupTuples (l : List (List Scalar)) : List (List Scalar) := dedupTuplesAux l []

/-- Embedding of map_display_values (reacttable.py lines 152 to 176) for
one dimension.  For a dimension with a display field, the display column
is grouped by the dimension level: per distinct level value the first non
null display value (pandas GroupBy.first skips nulls), with a remaining
null filled with the literal string null; the display column is then
deleted from the working frame.  A dimension carrying a literal display
value table contributes that table.  Missing level or column is the
pandas KeyError. -/
def map_display_values_dim (acc : DDV × Frame) (d : Dimension) : Except String (DDV × Frame) := do
  let (ddv, f) := acc
  let (ddv, f) ←
    if d.hasDisplayField then do
      let fdk := format_dimension_key d.key
      let fdisp := format_dimension_key d.displayKey
      let li ←
        match f.rowNames.findIdx? (fun n => n = some fdk) with
        | some li => pure li
        | Option.none => Except.error "KeyError: group level missing"
      let cj ←
        match f.cols.findIdx? (fun c => c = [Scalar.vStr fdisp]) with
        | some cj => pure cj
        | Option.none => Except.error "KeyError: display column missing"
      let pairs := (f.rows.map (fun r => r.getD li Scalar.vNone)).zip
        (f.data.map (fun r => r.getD cj Scalar.vNone))
      let m := (dedupFirst (pairs.map Prod.fst)).map
        (fun k =>
          (k,
            match ((pairs.filter (fun p => p.1 = k)).map Prod.snd).filter
                (fun v => ¬ pdIsNull v) with
            | v :: _ => v
            | [] => Scalar.vStr "null"))
      match f.cols.findIdx? (fun c => c = [Scalar.vStr fdisp]) with
      | some j =>
        pure (dictInsert ddv fdk m,
          { f with cols := f.cols.eraseIdx j, data := f.data.map (fun r => r.eraseIdx j) })
      | Option.none => Except.error "KeyError: display column missing"
    else pure (ddv, f)
  match d.displayValues with
  | some dv => pure (dictInsert ddv (format_dimension_key d.key) dv, f)
  | Option.none => pure (ddv, f)

/-- Embedding of map_display_values (reacttable.py lines 152 to 176) over
all dimensions, threading the working frame through the deletions. -/
def map_display_values (f : Frame) (dims : List Dimension) : Except String (DDV × Frame) :=
  dims.foldlM (fun acc d => map_display_values_dim acc d) ([], f)

/-- The DATE_FORMATS table (reacttable.py lines 35 to 42), with intervals
named by strings. -/
def DATE_FORMATS : List (String × String) :=
  [("hourly", "%Y-%m-%d %h"), ("daily", "%Y-%m-%d"), ("weekly", "%Y-%m"),
   ("monthly", "%Y"), ("quarterly", "%Y-%q"), ("annually", "%Y")]

/-- Format pattern selection with the daily default (reacttable.py line
191). -/
def interval_format (iv : String) : String := (alookup DATE_FORMATS iv).getD "%Y-%m-%d"

/-- Embedding of format_data_frame (reacttable.py lines 178 to 195): every
datetime dimension level is mapped through strftime with its interval
pattern (strftime itself is an external collaborator passed as a
function), nulls of the index become the totals sentinel, and the column
index is named as the metrics level. -/
def format_data_frame (strftime : String → Scalar → Scalar) (f : Frame)
    (dims : List Dimension) : Frame :=
  let rows := dims.enum.foldl
    (fun rs p =>
      if p.2.isDatetime then map_index_level rs p.1 (strftime (interval_format p.2.interval))
      else rs)
    f.rows
  { f with rows := fillna_index rows TOTALS_VALUE, colNames := [some metrics_dimension_key] }

/-- Column selection by name list, as in the source expression
data_frame[df_dimension_columns + df_metric_columns]: the named flat
columns in the requested order; a missing column is the hard KeyError of
the structural contract. -/
def select_columns (f : Frame) (names : List String) : Except String Frame :=
  match names.mapM
      (fun nm =>
        match f.cols.findIdx? (fun c => c = [Scalar.vStr nm]) with
        | some j => Except.ok j
        | Option.none => Except.error "KeyError: missing requested column") with
  | Except.ok (js : List Nat) =>
    Except.ok
      { f with cols := js.map (fun j => f.cols.getD j []),
               data := f.data.map (fun r => js.map (fun j => r.getD j Scalar.vNone)) }
  | Except.error e => Except.error e

/-- The null and infinity substitution of transform (reacttable.py lines
419 to 421): fillna with the string NaN, then replace of both infinities
with the string Inf. -/
def clean_cell : Scalar → Scalar
  | Scalar.vNone => Scalar.vStr "NaN"
  | Scalar.vNaN => Scalar.vStr "NaN"
  | Scalar.vInf _ => Scalar.vStr "Inf"
  | v => v

/-- The substitution applied to every cell of the working frame. -/
def clean_frame (f : Frame) : Frame :=
  { f with data := f.data.map (fun r => r.map clean_cell) }

/-- A projection of an index tuple onto the listed positions. -/
def projAt (positions : List Nat) (t : List Scalar) : List Scalar :=
  positions.map (fun i => t.getD i Scalar.vNone)

/-- Transposition of a frame: rows and columns swap axes. -/
def transpose_frame (f : Frame) : Frame :=
  { rowNames := f.colNames, rows := f.cols, colNames := f.rowNames, cols := f.rows,
    data := (List.range f.cols.length).map (fun j => f.data.map (fun r => r.getD j Scalar.vNaN)),
    rangeIndex := false, name := f.name }

/-- Modelled from the spec: the Pivot Engine (the pivot_data_frame method
of the Pandas widget base class, which is not part of this repository).
Spec 4.3: the named row levels are relocated into the column axis (above
the metrics level, matching Scenario A where the pivoted value is the top
header and the metric the leaf), the order of remaining row levels and of
the column levels is preserved, absent pivot keys are ignored, cells of
missing combinations are null filled, and the transpose flag swaps the
axes; with no pivot keys and no transpose the frame passes through
unchanged. -/
def pivot_data_frame (f : Frame) (keys : List String) (transpose : Bool) : Frame :=
  if keys = [] ∧ transpose = false then f
  else
    let present := keys.filter (fun k => f.rowNames.contains (some k))
    let f1 :=
      if present = [] then f
      else
        let pposs := present.map (fun k => ((f.rowNames.findIdx? (fun n => n = some k)).getD 0))
        let kposs := (List.range f.rowNames.length).filter (fun i => ¬ pposs.contains i)
        let rowKeys := dedupTuples (f.rows.map (projAt kposs))
        let pvtVals := dedupTuples (f.rows.map (projAt pposs))
        { rowNames := kposs.map (fun i => f.rowNames.getD i Option.none),
          rows := rowKeys,
          colNames := present.map some ++ f.colNames,
          cols := pvtVals.foldr (fun pv acc => f.cols.map (fun c => pv ++ c) ++ acc) [],
          data := rowKeys.map
            (fun rk => pvtVals.foldr
              (fun pv acc =>
                ((List.range f.cols.length).map
                  (fun j =>
                    match (f.rows.zip f.data).find?
                        (fun p => projAt kposs p.1 = rk ∧ projAt pposs p.1 = pv) with
                    | some p => p.2.getD j Scalar.vNaN
                    | Option.none => Scalar.vNaN)) ++ acc)
              []),
          rangeIndex := f.rangeIndex, name := f.name }
    if transpose then transpose_frame f1 else f1

/-! ## transform (reacttable.py lines 391 to 436) -/

/-- A metric descriptor: key, label, prefix, suffix, precision (the
source fields prefix and suffix are named pfx and sfx here). -/
structure MetricDef : Type where
  key : String
  label : String
  pfx : Option String
  sfx : Option String
  precision : Option Nat
deriving DecidableEq

/-- A comparison reference tag with its own key and label parts. -/
structure Reference : Type where
  key : String
  label : String
deriving DecidableEq

/-- Modelled from the spec: reference_key lives in fireant.references,
outside this repository.  A reference derives a distinct key from the base
metric key and the reference tag; no claim depends on the exact scheme. -/
def reference_key (m : MetricDef) (r : Option Reference) : String :=
  match r with
  | Option.none => m.key
  | some r => m.key ++ "_" ++ r.key

/-- Modelled from the spec: reference_label lives in fireant.references,
outside this repository. -/
def reference_label (m : MetricDef) (r : Option Reference) : String :=
  match r with
  | Option.none => m.label
  | some r => m.label ++ " " ++ r.label

/-- Embedding of ReferenceItem (reacttable.py lines 92 to 103): key and
label through the reference composition, formatting fields copied from the
base metric. -/
def mkReferenceItem (m : MetricDef) (r : Option Reference) : Item :=
  ⟨Scalar.vStr (reference_key m r), Scalar.vStr (reference_label m r),
   m.pfx, m.sfx, m.precision⟩

/-- The item map of transform before the totals entry (reacttable.py lines
411 to 413): per item, the plain entry then one per reference, keyed by
the formatted metric key, accumulated with dict semantics. -/
def item_map_of (items : List MetricDef) (refs : List Reference) : List (Scalar × Item) :=
  (items.flatMap
    (fun i =>
      (Option.none :: refs.map some).map
        (fun r => (Scalar.vStr (format_metric_key (reference_key i r)), mkReferenceItem i r)))).foldl
    (fun d p => dictInsert d p.1 p.2) []

/-- The metric column names requested from the result frame, the keys of
the item map before the totals entry (reacttable.py line 414). -/
def df_metric_columns_of (items : List MetricDef) (refs : List Reference) : List String :=
  (item_map_of items refs).filterMap
    (fun p =>
      match p.1 with
      | Scalar.vStr s => some s
      | _ => Option.none)

/-- The display field columns requested from the result frame
(reacttable.py lines 408 to 410). -/
def df_dimension_columns_of (dims : List Dimension) : List String :=
  (dims.filter (fun d => d.hasDisplayField)).map (fun d => format_dimension_key d.displayKey)

/-- The output of transform: the column definitions and the row records. -/
structure RTResult : Type where
  columns : List HNode
  data : List Record

/-- Embedding of ReactTable.transform (reacttable.py lines 391 to 436):
select the dimension display and metric columns, substitute nulls and
infinities, harvest the display value maps, format the index, pivot, and
produce the merged column definitions and row records.  The pivot
configuration is the list of pivoted dimension keys (line 426) plus the
transpose flag, and strftime is the external datetime renderer. -/
def transform (items : List MetricDef) (refs : List Reference)
    (pivotDims : List String) (transpose : Bool)
    (strftime : String → Scalar → Scalar)
    (dims : List Dimension) (data_frame : Frame) : Except String RTResult :=
  let im := dictInsert (item_map_of items refs) TOTALS_VALUE TotalsItem
  match select_columns data_frame
      (df_dimension_columns_of dims ++ df_metric_columns_of items refs) with
  | Except.error e => Except.error e
  | Except.ok df0 =>
    let df1 := clean_frame df0
    match map_display_values df1 dims with
    | Except.error e => Except.error e
    | Except.ok (ddv, df2) =>
      let df3 := format_data_frame strftime df2 dims
      let df4 := pivot_data_frame df3 (pivotDims.map format_dimension_key) transpose
      match transform_dimension_column_headers df4 dims with
      | Except.error e => Except.error e
      | Except.ok dimCols =>
        match transform_metric_column_headers df4 im ddv with
        | Except.error e => Except.error e
        | Except.ok metCols =>
          match transform_data df4 im ddv with
          | Except.error e => Except.error e
          | Except.ok data => Except.ok ⟨dimCols ++ metCols, data⟩

/-- A store passing embedding of transform that tracks object identity of
frames: the callers frame lives at callerIdx, and the copy taken at
reacttable.py line 419 allocates a fresh slot; the in place steps (the
display column deletions of map_display_values and the index and column
name assignments of format_data_frame) write that slot, while unstack and
transpose rebind the local variable to new frames without writing any
existing slot.  The result pairs the pure output with the final store. -/
def transform_heap (items : List MetricDef) (refs : List Reference)
    (pivotDims : List String) (transpose : Bool)
    (strftime : String → Scalar → Scalar)
    (dims : List Dimension) (frames : List Frame) (callerIdx : Nat) :
    Except String RTResult × List Frame :=
  match frames.get? callerIdx with
  | Option.none => (Except.error "invalid frame reference", frames)
  | some data_frame =>
    let im := dictInsert (item_map_of items refs) TOTALS_VALUE TotalsItem
    match select_columns data_frame
        (df_dimension_columns_of dims ++ df_metric_columns_of items refs) with
    | Except.error e => (Except.error e, frames)
    | Except.ok df0 =>
      let dfIdx := frames.length
      let st1 := frames ++ [clean_frame df0]
      match map_display_values (st1.getD dfIdx df0) dims with
      | Except.error e => (Except.error e, st1)
      | Except.ok (ddv, df2) =>
        let st2 := st1.set dfIdx df2
        let df3 := format_data_frame strftime (st2.getD dfIdx df2) dims
        let st3 := st2.set dfIdx df3
        let df4 := pivot_data_frame (st3.getD dfIdx df3) (pivotDims.map format_dimension_key)
          transpose
        match transform_dimension_column_headers df4 dims with
        | Except.error e => (Except.error e, st3)
        | Except.ok dimCols =>
          match transform_metric_column_headers df4 im ddv with
          | Except.error e => (Except.error e, st3)
          | Except.ok metCols =>
            match transform_data df4 im ddv with
            | Except.error e => (Except.error e, st3)
            | Except.ok data => (Except.ok ⟨dimCols ++ metCols, data⟩, st3)

/-! ## Basic dictionary lemmas -/

theorem alookup_dictInsert_self {α β : Type} [DecidableEq α] (l : List (α × β)) (k : α) (v : β) :
    alookup (dictInsert l k v) k = some v := by
  induction l with
  | nil => simp [dictInsert, alookup]
  | cons p rest ih =>
    by_cases h : p.1 = k
    · simp [dictInsert, h, alookup]
    · simp [dictInsert, h, alookup, ih]

theorem alookup_dictInsert_ne {α β : Type} [DecidableEq α] (l : List (α × β)) (k k' : α) (v : β)
    (h : k' ≠ k) : alookup (dictInsert l k v) k' = alookup l k' := by
  have hne : k ≠ k' := fun hh => h hh.symm
  induction l with
  | nil => simp [dictInsert, alookup, hne]
  | cons p rest ih =>
    by_cases hp : p.1 = k
    · subst hp
      simp [dictInsert, alookup, hne]
    · simp [dictInsert, hp, alookup, ih]

theorem alookup_isSome_of_mem {α β : Type} [DecidableEq α] (l : List (α × β)) (k : α)
    (h : k ∈ l.map Prod.fst) : (alookup l k).isSome := by
  induction l with
  | nil => simp at h
  | cons p rest ih =>
    by_cases hp : p.1 = k
    · simp [alookup, hp]
    · rw [List.map_cons, List.mem_cons] at h
      rcases h with h | h
      · exact absurd h.symm hp
      · simp [alookup, hp, ih h]

theorem mem_keys_dictInsert {α β : Type} [DecidableEq α] (l : List (α × β)) (k k' : α) (v : β) :
    k' ∈ (dictInsert l k v).map Prod.fst ↔ k' ∈ l.map Prod.fst ∨ k' = k := by
  induction l with
  | nil => simp [dictInsert]
  | cons p rest ih =>
    by_cases hp : p.1 = k
    · subst hp
      simp [dictInsert]
      tauto
    · simp [dictInsert, hp, List.map_cons, ih]
      tauto

/-! ## Except helper lemmas -/

theorem except_bind_ok {α β : Type} {x : Except String α} {f : α → Except String β} {b : β}
    (h : (x >>= f) = Except.ok b) : ∃ a, x = Except.ok a ∧ f a = Except.ok b := by
  cases x with
  | ok a => exact ⟨a, rfl, h⟩
  | error e => simp [Bind.bind, Except.bind] at h

theorem except_map_ok {α β : Type} {x : Except String α} {f : α → β} {b : β}
    (h : x.map f = Except.ok b) : ∃ a, x = Except.ok a ∧ f a = b := by
  cases x with
  | ok a =>
    refine ⟨a, rfl, ?_⟩
    simpa [Except.map] using h
  | error e => simp [Except.map] at h

theorem list_mapM_ok_mem {α β : Type} {f : α → Except String β} :
    ∀ {xs : List α} {ys : List β}, xs.mapM f = Except.ok ys →
      ∀ y ∈ ys, ∃ x ∈ xs, f x = Except.ok y := by
  intro xs
  induction xs with
  | nil =>
    intro ys h y hy
    simp [List.mapM, List.mapM.loop, pure, Except.pure] at h
    subst h
    simp at hy
  | cons a as ih =>
    intro ys h y hy
    rw [List.mapM_cons] at h
    obtain ⟨b, hb, h2⟩ := except_bind_ok h
    obtain ⟨bs, hbs, h3⟩ := except_bind_ok h2
    simp [pure, Except.pure] at h3
    subst h3
    rcases List.mem_cons.mp hy with h | h
    · exact ⟨a, List.mem_cons_self a as, h ▸ hb⟩
    · obtain ⟨x, hx, hfx⟩ := ih hbs y h
      exact ⟨x, List.mem_cons_of_mem a hx, hfx⟩

theorem list_mapM_ok_of_forall {α β : Type} {f : α → Except String β} :
    ∀ {xs : List α}, (∀ x ∈ xs, ∃ y, f x = Except.ok y) →
      ∃ ys, xs.mapM f = Except.ok ys := by
  intro xs
  induction xs with
  | nil => exact fun _ => ⟨[], rfl⟩
  | cons a as ih =>
    intro h
    obtain ⟨b, hb⟩ := h a (List.mem_cons_self a as)
    obtain ⟨bs, hbs⟩ := ih (fun x hx => h x (List.mem_cons_of_mem a hx))
    refine ⟨b :: bs, ?_⟩
    have hbs' : List.mapM.loop f as [] = Except.ok bs := hbs
    rw [List.mapM_cons, hb]
    simp [Bind.bind, Except.bind, hbs', pure, Except.pure]

/-! ## Claim C2 support: structure of the fixed point rendering -/

theorem formatFixed_struct (q : ℚ) (p : Nat) (hp : p ≠ 0) :
    ∃ ip fp, formatFixed q p = ip ++ "." ++ fp ∧ fp.length = p := by
  unfold formatFixed
  set m : Nat := roundHalfEvenNat (q.num.natAbs * 10 ^ p) q.den with hm
  have hlen : p ≤ (natDigitsPadded m (p + 1)).length := by
    unfold natDigitsPadded
    rw [List.length_append, List.length_replicate]
    omega
  refine ⟨(if q.num < 0 then "-" else "") ++ String.mk ((natDigitsPadded m (p + 1)).take
    ((natDigitsPadded m (p + 1)).length - p)),
    String.mk ((natDigitsPadded m (p + 1)).drop ((natDigitsPadded m (p + 1)).length - p)),
    ?_, ?_⟩
  · simp only [hp, if_false, String.append_assoc]
  · simp [String.length]
    omega

/-- C2: display_value is total and deterministic over the scalar type:
booleans are checked first and render lowercase, floats with a precision
render fixed point with exactly that many fractional digits, integers
render with thousands separators, strings fall back to the default
conversion, and the result is always prefix ++ formatted ++ suffix with
unset prefix and suffix empty; the four example values render as the claim
states.  Totality is inherent: the embedding is a function defined on
every scalar. -/
theorem C2_display_value_formatter :
    display_value (Scalar.vBool true) Option.none Option.none Option.none = "true" ∧
    display_value (Scalar.vInt 1234567) Option.none Option.none Option.none = "1,234,567" ∧
    display_value (Scalar.vFloat (mkRat 314159 100000)) Option.none Option.none (some 2) = "3.14" ∧
    display_value (Scalar.vInt 5) (some "$") Option.none Option.none = "$5" ∧
    (∀ bv pfx sfx prec, display_value (Scalar.vBool bv) pfx sfx prec
        = (pfx.getD "") ++ (if bv then "true" else "false") ++ (sfx.getD "")) ∧
    (∀ q pfx sfx (p : Nat), p ≠ 0 → ∃ core ip fp,
        display_value (Scalar.vFloat q) pfx sfx (some p)
          = (pfx.getD "") ++ core ++ (sfx.getD "")
        ∧ core = ip ++ "." ++ fp ∧ fp.length = p) ∧
    (∀ n pfx sfx prec, display_value (Scalar.vInt n) pfx sfx prec
        = (pfx.getD "") ++ intThousands n ++ (sfx.getD "")) ∧
    (∀ s pfx sfx prec, display_value (Scalar.vStr s) pfx sfx prec
        = (pfx.getD "") ++ s ++ (sfx.getD "")) := by
  refine ⟨by decide, by decide, by decide, by decide, ?_, ?_, ?_, ?_⟩
  · intro bv pfx sfx prec
    cases bv <;> simp [display_value, format_numeric_value, pyStr]
  · intro q pfx sfx p hp
    obtain ⟨ip, fp, heq, hlen⟩ := formatFixed_struct q p hp
    exact ⟨formatFixed q p, ip, fp, by simp [display_value, format_numeric_value], heq, hlen⟩
  · intro n pfx sfx prec
    simp [display_value, format_numeric_value]
  · intro s pfx sfx prec
    simp [display_value, format_numeric_value, pyStr]

/-- Witness for C2 at concrete inputs with every hypothesis discharged. -/
theorem C2_display_value_formatter_witness :
    (∃ core ip fp,
      display_value (Scalar.vFloat (mkRat 5 1)) Option.none Option.none (some 3)
        = ((Option.none : Option String).getD "") ++ core
          ++ ((Option.none : Option String).getD "")
      ∧ core = ip ++ "." ++ fp ∧ fp.length = 3) ∧
    display_value (Scalar.vBool false) (some "p") (some "s") Option.none
      = ((some "p" : Option String).getD "") ++ (if false then "true" else "false")
        ++ ((some "s" : Option String).getD "") :=
  ⟨C2_display_value_formatter.2.2.2.2.2.1 (mkRat 5 1) Option.none Option.none 3 (by decide),
   C2_display_value_formatter.2.2.2.2.1 false (some "p") (some "s") Option.none⟩

/-- C8: the modifier wrapper delegates attribute reads to the wrapped
object when the wrapper does not hold the attribute itself; a write whose
attribute already exists in the wrapped objects own state goes through and
mutates the wrapped object (the new value is then visible on it), while
otherwise the attribute is set locally on the wrapper; and the Rollup
definition property always yields the null sentinel regardless of the
wrapped dimensions own definition. -/
theorem C8_modifier_delegation :
    (∀ (m : Modifier) (w : PyVal) (foo : String),
        alookup m.dict foo = Option.none →
        alookup m.dict m.wrappedKey = some w →
        modifier_getattr m foo = objGetattr w foo) ∧
    (∀ (wk : String) (wa : List (String × PyVal)) (foo : String), foo ≠ wk →
        modifier_getattr (modifier_init wk (PyVal.obj wa)) foo = alookup wa foo) ∧
    (∀ (m : Modifier) (wa : List (String × PyVal)) (foo : String) (v : PyVal),
        foo ≠ m.wrappedKey →
        alookup m.dict m.wrappedKey = some (PyVal.obj wa) →
        (alookup wa foo).isSome →
        modifier_setattr m foo v =
          some ⟨m.wrappedKey, dictInsert m.dict m.wrappedKey
            (PyVal.obj (dictInsert wa foo v))⟩) ∧
    (∀ (m : Modifier) (wa : List (String × PyVal)) (foo : String) (v : PyVal),
        foo ≠ m.wrappedKey →
        alookup m.dict m.wrappedKey = some (PyVal.obj wa) →
        alookup wa foo = Option.none →
        modifier_setattr m foo v = some ⟨m.wrappedKey, dictInsert m.dict foo v⟩) ∧
    (∀ (wa : List (String × PyVal)) (foo : String) (v : PyVal),
        objGetattr (PyVal.obj (dictInsert wa foo v)) foo = some v) ∧
    (∀ (m : Modifier), rollup_getattr m "definition" = some PyVal.null) := by
  refine ⟨?_, ?_, ?_, ?_, ?_, ?_⟩
  · intro m w foo hmiss hw
    simp [modifier_getattr, hmiss, hw]
  · intro wk wa foo hne
    have hne' : ¬ wk = foo := fun h => hne h.symm
    simp [modifier_init, modifier_getattr, alookup, hne', objGetattr]
  · intro m wa foo v hne hw hsome
    simp [modifier_setattr, hne, hw, hsome]
  · intro m wa foo v hne hw hnone
    simp [modifier_setattr, hne, hw, hnone]
  · intro wa foo v
    simp [objGetattr, alookup_dictInsert_self]
  · intro m
    simp [rollup_getattr]

/-- Witness for C8: a Rollup style wrapper around a dimension object whose
own state holds a definition and a label; the read delegates, the write of
an existing attribute writes through and is visible on the wrapped object,
and the definition read yields the null sentinel. -/
theorem C8_modifier_delegation_witness :
    modifier_getattr (modifier_init "dimension"
        (PyVal.obj [("definition", PyVal.strV "col"), ("label", PyVal.strV "L")])) "label"
      = some (PyVal.strV "L") ∧
    modifier_setattr (modifier_init "dimension"
        (PyVal.obj [("definition", PyVal.strV "col"), ("label", PyVal.strV "L")]))
        "label" (PyVal.strV "X")
      = some ⟨"dimension", dictInsert [("dimension",
          PyVal.obj [("definition", PyVal.strV "col"), ("label", PyVal.strV "L")])]
          "dimension"
          (PyVal.obj (dictInsert [("definition", PyVal.strV "col"), ("label", PyVal.strV "L")]
            "label" (PyVal.strV "X")))⟩ ∧
    rollup_getattr (modifier_init "dimension"
        (PyVal.obj [("definition", PyVal.strV "col"), ("label", PyVal.strV "L")])) "definition"
      = some PyVal.null :=
  ⟨C8_modifier_delegation.2.1 "dimension"
      [("definition", PyVal.strV "col"), ("label", PyVal.strV "L")] "label" (by decide),
   C8_modifier_delegation.2.2.1
      (modifier_init "dimension"
        (PyVal.obj [("definition", PyVal.strV "col"), ("label", PyVal.strV "L")]))
      [("definition", PyVal.strV "col"), ("label", PyVal.strV "L")] "label" (PyVal.strV "X")
      (by decide) rfl rfl,
   C8_modifier_delegation.2.2.2.2.2
      (modifier_init "dimension"
        (PyVal.obj [("definition", PyVal.strV "col"), ("label", PyVal.strV "L")]))⟩

/-! ## Header tree lemmas -/

theorem makeCols_nil (im : List (Scalar × Item)) (ddv : DDV) (dfName : Option String)
    (tuples : List (List Scalar)) (prev : List Scalar) :
    makeCols im ddv dfName [] tuples prev = Except.error "IndexError: empty column index" := rfl

theorem makeCols_cons (im : List (Scalar × Item)) (ddv : DDV) (dfName : Option String)
    (fKey : Option String) (rest : List (Option String))
    (tuples : List (List Scalar)) (prev : List Scalar) :
    makeCols im ddv dfName (fKey :: rest) tuples prev
      = makeColsStep im ddv dfName fKey (makeCols im ddv dfName rest)
          (mkGroups (fKey :: rest) tuples) prev := rfl

/-- The node produced by the loop body of _make_columns for one group
value, as a relation: header from get_header, children from the recursion
for a group, the joined accessor for a leaf, and the totals class name
exactly for the sentinel value. -/
def builtFrom (im : List (Scalar × Item)) (ddv : DDV) (dfName : Option String)
    (fKey : Option String)
    (recFn : List (List Scalar) → List Scalar → Except String (List HNode))
    (prev : List Scalar) (v : Scalar) (g? : Option (List (List Scalar))) (n : HNode) : Prop :=
  match g? with
  | some tails => ∃ hdr sub,
      get_header im ddv fKey v (decide (v = TOTALS_VALUE)) = Except.ok hdr ∧
      recFn tails (prev ++ [v]) = Except.ok sub ∧
      n = HNode.mk hdr Option.none
        (if v = TOTALS_VALUE then some "fireant-totals" else Option.none) (some sub)
  | Option.none => ∃ hdr acc,
      get_header im ddv fKey v (decide (v = TOTALS_VALUE)) = Except.ok hdr ∧
      join_levels (prev ++ [v] ++ nameLevels dfName) = Except.ok acc ∧
      n = HNode.mk hdr (some acc)
        (if v = TOTALS_VALUE then some "fireant-totals" else Option.none) Option.none

theorem makeColsStep_ok_mem (im : List (Scalar × Item)) (ddv : DDV) (dfName : Option String)
    (fKey : Option String)
    (recFn : List (List Scalar) → List Scalar → Except String (List HNode)) :
    ∀ (groups : List (Scalar × Option (List (List Scalar)))) (prev : List Scalar)
      (ns : List HNode),
      makeColsStep im ddv dfName fKey recFn groups prev = Except.ok ns →
      ∀ n ∈ ns, ∃ v g?, (v, g?) ∈ groups ∧ builtFrom im ddv dfName fKey recFn prev v g? n := by
  intro groups
  induction groups with
  | nil =>
    intro prev ns h n hn
    simp [makeColsStep, pure, Except.pure] at h
    subst h
    simp at hn
  | cons g gs ih =>
    intro prev ns h n hn
    obtain ⟨v, g?⟩ := g
    simp only [makeColsStep] at h
    obtain ⟨hdr, hh, h2⟩ := except_bind_ok h
    cases g? with
    | some tails =>
      obtain ⟨sub, hsub, h3⟩ := except_bind_ok h2
      obtain ⟨y, hy, h4⟩ := except_bind_ok h3
      simp only [pure, Except.pure, Except.ok.injEq] at hy
      obtain ⟨restCols, hrest, hp⟩ := except_bind_ok h4
      simp only [pure, Except.pure, Except.ok.injEq] at hp
      subst hp
      subst hy
      rcases List.mem_cons.mp hn with hn | hn
      · subst hn
        exact ⟨v, some tails, List.mem_cons_self _ _, hdr, sub, hh, hsub, rfl⟩
      · obtain ⟨v', g?', hmem, hbuilt⟩ := ih prev restCols hrest n hn
        exact ⟨v', g?', List.mem_cons_of_mem _ hmem, hbuilt⟩
    | none =>
      obtain ⟨acc, hacc, h3⟩ := except_bind_ok h2
      obtain ⟨y, hy, h4⟩ := except_bind_ok h3
      simp only [pure, Except.pure, Except.ok.injEq] at hy
      obtain ⟨restCols, hrest, hp⟩ := except_bind_ok h4
      simp only [pure, Except.pure, Except.ok.injEq] at hp
      subst hp
      subst hy
      rcases List.mem_cons.mp hn with hn | hn
      · subst hn
        exact ⟨v, Option.none, List.mem_cons_self _ _, hdr, acc, hh, hacc, rfl⟩
      · obtain ⟨v', g?', hmem, hbuilt⟩ := ih prev restCols hrest n hn
        exact ⟨v', g?', List.mem_cons_of_mem _ hmem, hbuilt⟩

theorem mkGroups_none_mem (names : List (Option String)) (tuples : List (List Scalar))
    (v : Scalar) (h : (v, (Option.none : Option (List (List Scalar)))) ∈ mkGroups names tuples) :
    ¬ 2 ≤ names.length ∧ ∃ t ∈ tuples, headScalar t = v := by
  unfold mkGroups at h
  by_cases hl : 2 ≤ names.length
  · simp [hl] at h
  · simp [hl] at h
    obtain ⟨t, ht, hv⟩ := h
    exact ⟨hl, t, ht, hv⟩

theorem mkGroups_some_mem (names : List (Option String)) (tuples : List (List Scalar))
    (v : Scalar) (tails : List (List Scalar))
    (h : (v, some tails) ∈ mkGroups names tuples) :
    2 ≤ names.length ∧ tails = (tuples.filter (fun t => headScalar t = v)).map List.tail := by
  unfold mkGroups at h
  by_cases hl : 2 ≤ names.length
  · simp [hl, groupby_level0] at h
    obtain ⟨k, hk, hv, htails⟩ := h
    subst hv
    exact ⟨hl, htails.symm⟩
  · simp [hl] at h

theorem mem_of_tails (tuples : List (List Scalar)) (v : Scalar) (t' : List Scalar)
    (h : t' ∈ (tuples.filter (fun t => headScalar t = v)).map List.tail) :
    ∃ t ∈ tuples, headScalar t = v ∧ t.tail = t' := by
  rw [List.mem_map] at h
  obtain ⟨t, ht, htail⟩ := h
  rw [List.mem_filter] at ht
  exact ⟨t, ht.1, by simpa using ht.2, htail⟩

theorem cons_head_tail (t : List Scalar) (h : t ≠ []) : headScalar t :: t.tail = t := by
  cases t with
  | nil => exact absurd rfl h
  | cons x xs => rfl

/-- Leaf accessor characterization of _make_columns: every leaf accessor
of the produced forest is the dot join of the accumulated path and one of
the column tuples, with the data frame name appended when present. -/
theorem makeCols_leaf_accessor (im : List (Scalar × Item)) (ddv : DDV) (dfName : Option String) :
    ∀ (names : List (Option String)) (tuples : List (List Scalar)) (prev : List Scalar)
      (ns : List HNode),
      (∀ t ∈ tuples, t.length = names.length) →
      makeCols im ddv dfName names tuples prev = Except.ok ns →
      ∀ n ∈ ns, ∀ a, HasLeaf n a →
        ∃ t ∈ tuples, join_levels (prev ++ t ++ nameLevels dfName) = Except.ok a := by
  intro names
  induction names with
  | nil =>
    intro tuples prev ns hlen h
    rw [makeCols_nil] at h
    simp at h
  | cons fKey rest ih =>
    intro tuples prev ns hlen h n hn a hleaf
    rw [makeCols_cons] at h
    obtain ⟨v, g?, hmem, hbuilt⟩ := makeColsStep_ok_mem _ _ _ _ _ _ _ _ h n hn
    cases g? with
    | none =>
      obtain ⟨hdr, acc, hh, hj, hnode⟩ := hbuilt
      subst hnode
      cases hleaf with
      | leaf =>
        obtain ⟨hflat, t, ht, hv⟩ := mkGroups_none_mem _ _ _ hmem
        have hl1 : t.length = 1 := by
          have h1 := hlen t ht
          have h2 : (fKey :: rest).length = rest.length + 1 := rfl
          omega
        have ht1 : t = [v] := by
          cases t with
          | nil => simp at hl1
          | cons x xs =>
            cases xs with
            | nil => simpa [headScalar] using congrArg (fun z => [z]) hv
            | cons y ys => simp at hl1
        exact ⟨t, ht, by rw [ht1]; exact hj⟩
    | some tails =>
      obtain ⟨hdr, sub, hh, hrec, hnode⟩ := hbuilt
      subst hnode
      cases hleaf with
      | group _ _ _ _ n' a hmem' hleaf' =>
        obtain ⟨hge, htails⟩ := mkGroups_some_mem _ _ _ _ hmem
        have hlen' : ∀ t' ∈ tails, t'.length = rest.length := by
          intro t' ht'
          rw [htails] at ht'
          obtain ⟨t, ht, hv, htl⟩ := mem_of_tails _ _ _ ht'
          have := hlen t ht
          subst htl
          simp [List.length_tail, this]
        obtain ⟨t', ht', hj'⟩ := ih tails (prev ++ [v]) sub hlen' hrec n' hmem' a hleaf'
        rw [htails] at ht'
        obtain ⟨t, ht, hv, htl⟩ := mem_of_tails _ _ _ ht'
        refine ⟨t, ht, ?_⟩
        have hne : t ≠ [] := by
          intro hnil
          have h1 := hlen t ht
          rw [hnil] at h1
          simp at h1
        have : t = v :: t' := by
          rw [← htl, ← hv]
          exact (cons_head_tail t hne).symm
        rw [this]
        simpa [List.append_assoc] using hj'

/-- Totals marker characterization: in the header forest of _make_columns
every reachable node that carries any class name carries exactly the
fireant totals marker, and when the item map carries the totals entry that
node renders the Totals label. -/
theorem makeCols_totals_marker (im : List (Scalar × Item)) (ddv : DDV) (dfName : Option String) :
    ∀ (names : List (Option String)) (tuples : List (List Scalar)) (prev : List Scalar)
      (ns : List HNode),
      makeCols im ddv dfName names tuples prev = Except.ok ns →
      ∀ n, Reaches ns n → ∀ c, n.classNameOf = some c →
        c = "fireant-totals" ∧
        (alookup im TOTALS_VALUE = some TotalsItem → n.headerOf = Scalar.vStr "Totals") := by
  intro names
  induction names with
  | nil =>
    intro tuples prev ns h
    rw [makeCols_nil] at h
    simp at h
  | cons fKey rest ih =>
    intro tuples prev ns h n hr c hc
    rw [makeCols_cons] at h
    cases hr with
    | here _ _ hn =>
      obtain ⟨v, g?, hmem, hbuilt⟩ := makeColsStep_ok_mem _ _ _ _ _ _ _ _ h n hn
      cases g? with
      | some tails =>
        obtain ⟨hdr, sub, hh, hrec, hnode⟩ := hbuilt
        subst hnode
        simp only [HNode.classNameOf] at hc
        by_cases hv : v = TOTALS_VALUE
        · simp only [hv, if_true, Option.some.injEq] at hc
          refine ⟨hc.symm, ?_⟩
          intro him
          subst hv
          simp [get_header, him] at hh
          simp [HNode.headerOf, ← hh, TotalsItem]
        · simp [hv] at hc
      | none =>
        obtain ⟨hdr, acc, hh, hj, hnode⟩ := hbuilt
        subst hnode
        simp only [HNode.classNameOf] at hc
        by_cases hv : v = TOTALS_VALUE
        · simp only [hv, if_true, Option.some.injEq] at hc
          refine ⟨hc.symm, ?_⟩
          intro him
          subst hv
          simp [get_header, him] at hh
          simp [HNode.headerOf, ← hh, TotalsItem]
        · simp [hv] at hc
    | deeper h' a' c' subs _ _ hpmem hr' =>
      obtain ⟨v, g?, hmem, hbuilt⟩ := makeColsStep_ok_mem _ _ _ _ _ _ _ _ h _ hpmem
      cases g? with
      | none =>
        obtain ⟨hdr, acc, _, _, hnode⟩ := hbuilt
        exact absurd (congrArg HNode.subOf hnode) (by simp [HNode.subOf])
      | some tails =>
        obtain ⟨hdr, sub, hh, hrec, hnode⟩ := hbuilt
        have hsubs : subs = sub := by
          have := congrArg HNode.subOf hnode
          simpa [HNode.subOf] using this
        subst hsubs
        exact ih tails (prev ++ [v]) _ hrec n hr' c hc

theorem mapM_str_ok :
    ∀ (levels : List Scalar) (ss : List String),
      levels.mapM
        (fun x =>
          match x with
          | Scalar.vStr s => Except.ok s
          | _ => Except.error "TypeError: join on non string level") = Except.ok ss →
      levels = ss.map Scalar.vStr := by
  intro levels
  induction levels with
  | nil =>
    intro ss h
    simp [List.mapM, List.mapM.loop, pure, Except.pure] at h
    simp [← h]
  | cons x xs ih =>
    intro ss h
    rw [List.mapM_cons] at h
    obtain ⟨s, hs, h2⟩ := except_bind_ok h
    obtain ⟨ts, hts, h3⟩ := except_bind_ok h2
    simp [pure, Except.pure] at h3
    cases x <;> simp at hs
    subst h3
    simp [List.map_cons, hs, ih ts hts]

theorem join_levels_ok (levels : List Scalar) (a : String)
    (h : join_levels levels = Except.ok a) :
    ∃ comps : List String, levels = comps.map Scalar.vStr
      ∧ a = String.intercalate "." comps := by
  unfold join_levels at h
  obtain ⟨ss, hss, hmap⟩ := except_map_ok h
  exact ⟨ss, mapM_str_ok levels ss hss, hmap.symm⟩

/-- C6: every leaf accessor of the metric header tree is the dot joined
accumulated path, one of the column tuples of the frame; and when the
metrics level was collapsed for a single metric (the frame carries a
name), that sole key is appended as the final path component. -/
theorem C6_leaf_accessor_construction (df : Frame) (im : List (Scalar × Item)) (ddv : DDV)
    (ns : List HNode)
    (hlen : ∀ t ∈ df.cols, t.length = df.colNames.length)
    (h : transform_metric_column_headers df im ddv = Except.ok ns) :
    ∀ n ∈ ns, ∀ a, HasLeaf n a →
      ∃ t ∈ df.cols, ∃ comps : List String,
        t ++ nameLevels df.name = comps.map Scalar.vStr
        ∧ a = String.intercalate "." comps := by
  intro n hn a hleaf
  obtain ⟨t, ht, hj⟩ :=
    makeCols_leaf_accessor im ddv df.name df.colNames df.cols [] ns hlen h n hn a hleaf
  obtain ⟨comps, hcomps, ha⟩ := join_levels_ok _ _ hj
  refine ⟨t, ht, comps, ?_, ha⟩
  simpa using hcomps

/-- Witness for C6: a single pivoted column value with the metrics level
collapsed onto the frame name; the leaf accessor is the joined path with
the sole metric key appended. -/
theorem C6_leaf_accessor_construction_witness :
    ∃ t ∈ [[Scalar.vStr "a"]], ∃ comps : List String,
      t ++ nameLevels (some "$m$m") = comps.map Scalar.vStr
      ∧ "a.$m$m" = String.intercalate "." comps :=
  C6_leaf_accessor_construction
    ⟨[some "$d$day"], [], [some "$d$p"], [[Scalar.vStr "a"]], [], false, some "$m$m"⟩
    [] [] [HNode.mk (Scalar.vStr "a") (some "a.$m$m") Option.none Option.none]
    (by decide) rfl
    (HNode.mk (Scalar.vStr "a") (some "a.$m$m") Option.none Option.none)
    (List.mem_singleton.mpr rfl) "a.$m$m"
    (HasLeaf.leaf (Scalar.vStr "a") "a.$m$m" Option.none)

theorem forall2_map {α β : Type} (f : α → β) (R : α → β → Prop) (h : ∀ x, R x (f x)) :
    ∀ l : List α, List.Forall₂ R l (l.map f) := by
  intro l
  induction l with
  | nil => exact List.Forall₂.nil
  | cons x xs ih => exact List.Forall₂.cons (h x) ih

/-- C5: the totals invariant.  First, index normalization: fillna_index
replaces exactly the null entries with the totals sentinel (stated
positionally), and format_data_frame applies it to the datetime formatted
index.  Second, the header forest: each column definition built for a
group value carries the fireant-totals class name exactly when that value
is the totals sentinel, and the totals node renders the Totals label of
the totals descriptor; at the tree level no reachable node carries any
other marker. -/
theorem C5_totals_invariant :
    (∀ (rows : List (List Scalar)),
        List.Forall₂ (List.Forall₂ (fun x y => y = if pdIsNull x then TOTALS_VALUE else x))
          rows (fillna_index rows TOTALS_VALUE)) ∧
    (∀ (strf : String → Scalar → Scalar) (f : Frame) (dims : List Dimension),
        (format_data_frame strf f dims).rows
          = fillna_index
              (dims.enum.foldl
                (fun rs p =>
                  if p.2.isDatetime then
                    map_index_level rs p.1 (strf (interval_format p.2.interval))
                  else rs)
                f.rows)
              TOTALS_VALUE) ∧
    (∀ (im : List (Scalar × Item)) (ddv : DDV) (dfName : Option String)
        (fKey : Option String)
        (recFn : List (List Scalar) → List Scalar → Except String (List HNode))
        (groups : List (Scalar × Option (List (List Scalar)))) (prev : List Scalar)
        (ns : List HNode),
        makeColsStep im ddv dfName fKey recFn groups prev = Except.ok ns →
        ∀ n ∈ ns, ∃ v g?, (v, g?) ∈ groups ∧
          (n.classNameOf = some "fireant-totals" ↔ v = TOTALS_VALUE) ∧
          (v = TOTALS_VALUE → alookup im TOTALS_VALUE = some TotalsItem →
            n.headerOf = Scalar.vStr "Totals")) ∧
    (∀ (im : List (Scalar × Item)) (ddv : DDV) (dfName : Option String)
        (names : List (Option String)) (tuples : List (List Scalar)) (prev : List Scalar)
        (ns : List HNode),
        makeCols im ddv dfName names tuples prev = Except.ok ns →
        ∀ n, Reaches ns n → ∀ c, n.classNameOf = some c →
          c = "fireant-totals" ∧ (alookup im TOTALS_VALUE = some TotalsItem →
            n.headerOf = Scalar.vStr "Totals")) := by
  refine ⟨?_, ?_, ?_, ?_⟩
  · intro rows
    unfold fillna_index
    exact forall2_map (fun r => r.map (fun x => if pdIsNull x then TOTALS_VALUE else x))
      (List.Forall₂ (fun x y => y = if pdIsNull x then TOTALS_VALUE else x))
      (fun r => forall2_map (fun x => if pdIsNull x then TOTALS_VALUE else x)
        (fun x y => y = if pdIsNull x then TOTALS_VALUE else x) (fun x => rfl) r)
      rows
  · intro strf f dims
    rfl
  · intro im ddv dfName fKey recFn groups prev ns h n hn
    obtain ⟨v, g?, hmem, hbuilt⟩ := makeColsStep_ok_mem _ _ _ _ _ _ _ _ h n hn
    refine ⟨v, g?, hmem, ?_⟩
    cases g? with
    | some tails =>
      obtain ⟨hdr, sub, hh, hrec, hnode⟩ := hbuilt
      subst hnode
      constructor
      · simp only [HNode.classNameOf]
        by_cases hv : v = TOTALS_VALUE <;> simp [hv]
      · intro hv him
        subst hv
        simp [get_header, him] at hh
        simp [HNode.headerOf, ← hh, TotalsItem]
    | none =>
      obtain ⟨hdr, acc, hh, hj, hnode⟩ := hbuilt
      subst hnode
      constructor
      · simp only [HNode.classNameOf]
        by_cases hv : v = TOTALS_VALUE <;> simp [hv]
      · intro hv him
        subst hv
        simp [get_header, him] at hh
        simp [HNode.headerOf, ← hh, TotalsItem]
  · exact fun im ddv dfName names tuples prev ns h n hr c hc =>
      makeCols_totals_marker im ddv dfName names tuples prev ns h n hr c hc

/-- Witness for C5 at a concrete totals group: the built column carries
the totals marker and the Totals header. -/
theorem C5_totals_invariant_witness :
    ∃ v g?, (v, g?) ∈ [(TOTALS_VALUE, (Option.none : Option (List (List Scalar))))] ∧
      ((HNode.mk (Scalar.vStr "Totals") (some "$totals$") (some "fireant-totals")
          Option.none).classNameOf = some "fireant-totals" ↔ v = TOTALS_VALUE) ∧
      (v = TOTALS_VALUE →
        alookup [(TOTALS_VALUE, TotalsItem)] TOTALS_VALUE = some TotalsItem →
        (HNode.mk (Scalar.vStr "Totals") (some "$totals$") (some "fireant-totals")
          Option.none).headerOf = Scalar.vStr "Totals") :=
  C5_totals_invariant.2.2.1 [(TOTALS_VALUE, TotalsItem)] [] Option.none Option.none
    (fun _ _ => Except.ok []) [(TOTALS_VALUE, Option.none)] []
    [HNode.mk (Scalar.vStr "Totals") (some "$totals$") (some "fireant-totals") Option.none]
    rfl
    (HNode.mk (Scalar.vStr "Totals") (some "$totals$") (some "fireant-totals") Option.none)
    (List.mem_singleton.mpr rfl)

/-! ## Row record lemmas -/

theorem setdeepattr_get :
    ∀ (t : List Scalar) (es es' : Record) (v : RVal),
      setdeepattr es t v = Except.ok es' → getdeep (RVal.dict es') t = some v := by
  intro t
  induction t with
  | nil =>
    intro es es' v h
    simp [setdeepattr] at h
  | cons k rest ih =>
    intro es es' v h
    cases rest with
    | nil =>
      simp only [setdeepattr, Except.ok.injEq] at h
      subst h
      simp [getdeep, alookup_dictInsert_self]
    | cons k2 r2 =>
      simp only [setdeepattr] at h
      cases halk : alookup es k with
      | some sub =>
        cases sub with
        | dict subes =>
          rw [halk] at h
          obtain ⟨sub', hsub, hes'⟩ := except_map_ok h
          subst hes'
          simp only [getdeep, alookup_dictInsert_self]
          have hid := ih _ _ _ hsub
          simp only [getdeep] at hid
          exact hid
        | scalar sv =>
          rw [halk] at h
          simp at h
      | none =>
        rw [halk] at h
        obtain ⟨sub', hsub, hes'⟩ := except_map_ok h
        subst hes'
        simp only [getdeep, alookup_dictInsert_self]
        have hid := ih _ _ _ hsub
        simp only [getdeep] at hid
        exact hid

theorem setdeepattr_preserve :
    ∀ (t t' : List Scalar), t.length = t'.length →
      ∀ (es es' : Record) (v : RVal), setdeepattr es t' v = Except.ok es' →
        (getdeep (RVal.dict es) t).isSome → (getdeep (RVal.dict es') t).isSome := by
  intro t
  induction t with
  | nil =>
    intro t' hlen es es' v h hb
    simp [getdeep]
  | cons k rest ih =>
    intro t' hlen es es' v h hb
    cases t' with
    | nil => simp at hlen
    | cons k' rest' =>
      by_cases hk : k' = k
      · subst hk
        cases rest' with
        | nil =>
          have hrest : rest = [] := by
            cases rest with
            | nil => rfl
            | cons a b => simp at hlen
          subst hrest
          simp only [setdeepattr, Except.ok.injEq] at h
          subst h
          simp [getdeep, alookup_dictInsert_self]
        | cons k2' r2' =>
          simp only [setdeepattr] at h
          cases halk : alookup es k' with
          | some sub =>
            cases sub with
            | dict subes =>
              rw [halk] at h
              obtain ⟨sub', hsub, hes'⟩ := except_map_ok h
              subst hes'
              simp only [getdeep, halk] at hb
              cases rest with
              | nil =>
                simp [getdeep, alookup_dictInsert_self]
              | cons kk rr =>
                simp only [getdeep, alookup_dictInsert_self]
                have hlen' : (kk :: rr).length = (k2' :: r2').length := by
                  simp at hlen
                  simpa using hlen
                exact ih _ hlen' _ _ _ hsub hb
            | scalar sv =>
              rw [halk] at h
              simp at h
          | none =>
            simp only [getdeep, halk] at hb
            cases rest with
            | nil => simp at hb
            | cons kk rr => simp at hb
      · have hkk : k ≠ k' := fun hh => hk hh.symm
        cases rest' with
        | nil =>
          simp only [setdeepattr, Except.ok.injEq] at h
          subst h
          simp only [getdeep, alookup_dictInsert_ne es k' k v hkk]
          exact hb
        | cons k2' r2' =>
          simp only [setdeepattr] at h
          cases halk : alookup es k' with
          | some sub =>
            cases sub with
            | dict subes =>
              rw [halk] at h
              obtain ⟨sub', hsub, hes'⟩ := except_map_ok h
              subst hes'
              simp only [getdeep, alookup_dictInsert_ne es k' k _ hkk]
              exact hb
            | scalar sv =>
              rw [halk] at h
              simp at h
          | none =>
            rw [halk] at h
            obtain ⟨sub', hsub, hes'⟩ := except_map_ok h
            subst hes'
            simp only [getdeep, alookup_dictInsert_ne es k' k _ hkk]
            exact hb

theorem mem_zip_left {α β : Type} :
    ∀ (l1 : List α) (l2 : List β) (x : α), x ∈ l1 → l1.length ≤ l2.length →
      ∃ y, (x, y) ∈ l1.zip l2 := by
  intro l1
  induction l1 with
  | nil => intro l2 x hx; simp at hx
  | cons a as ih =>
    intro l2 x hx hlen
    cases l2 with
    | nil => simp at hlen
    | cons b bs =>
      rcases List.mem_cons.mp hx with hx | hx
      · exact ⟨b, by simp [hx]⟩
      · obtain ⟨y, hy⟩ := ih bs x hx (by simpa using hlen)
        exact ⟨y, List.mem_cons_of_mem _ hy⟩

/-- Fold invariant for the column assignment loop of transform_data: a
successful fold makes every processed key path resolvable, and keeps every
already resolvable path of the same length resolvable. -/
theorem foldlM_setdeep_resolves (g : List Scalar × Scalar → RVal) (L : Nat) :
    ∀ (pairs : List (List Scalar × Scalar)) (es r : Record),
      pairs.foldlM (fun row p => setdeepattr row p.1 (g p)) es = Except.ok r →
      (∀ p ∈ pairs, p.1.length = L) →
      (∀ t : List Scalar, t.length = L →
        (getdeep (RVal.dict es) t).isSome → (getdeep (RVal.dict r) t).isSome)
      ∧ (∀ p ∈ pairs, (getdeep (RVal.dict r) p.1).isSome) := by
  intro pairs
  induction pairs with
  | nil =>
    intro es r h hL
    have hr : es = r := by
      simpa [List.foldlM, pure, Except.pure] using h
    subst hr
    exact ⟨fun t _ hb => hb, by simp⟩
  | cons p ps ih =>
    intro es r h hL
    rw [List.foldlM_cons] at h
    obtain ⟨es1, h1, h2⟩ := except_bind_ok h
    have hlen1 : p.1.length = L := hL p (List.mem_cons_self _ _)
    obtain ⟨pres, hmem⟩ := ih es1 r h2 (fun q hq => hL q (List.mem_cons_of_mem _ hq))
    have hset : (getdeep (RVal.dict es1) p.1).isSome := by
      rw [setdeepattr_get p.1 es es1 (g p) h1]
      rfl
    refine ⟨?_, ?_⟩
    · intro t ht hb
      exact pres t ht (setdeepattr_preserve t p.1 (ht.trans hlen1.symm) es es1 _ h1 hb)
    · intro q hq
      rcases List.mem_cons.mp hq with hq | hq
      · subst hq
        exact pres q.1 hlen1 hset
      · exact hmem q hq

/-- Every column key path of the frame resolves in a successfully built
row record. -/
theorem transform_row_resolves (rowNames : List (Option String)) (cols : List (List Scalar))
    (im : List (Scalar × Item)) (ddv : DDV) (idx vals : List Scalar) (r : Record) (L : Nat)
    (h : transform_row rowNames cols im ddv idx vals = Except.ok r)
    (hlen : ∀ c ∈ cols, c.length = L)
    (hvals : cols.length ≤ vals.length) :
    ∀ t ∈ cols, (getdeep (RVal.dict r) t).isSome := by
  unfold transform_row at h
  have hres := foldlM_setdeep_resolves (fun p => column_cell im p.2 p.1) L (cols.zip vals)
    (index_row im ddv rowNames idx) r h
    (fun p hp => hlen p.1 (List.of_mem_zip hp).1)
  intro t ht
  obtain ⟨v, hv⟩ := mem_zip_left cols vals t ht hvals
  exact hres.2 (t, v) hv

theorem zip_get?_eq {α β : Type} :
    ∀ (l1 : List α) (l2 : List β) (i : Nat) (a : α) (b : β),
      l1.get? i = some a → l2.get? i = some b → (l1.zip l2).get? i = some (a, b) := by
  intro l1
  induction l1 with
  | nil => intro l2 i a b h1; simp at h1
  | cons x xs ih =>
    intro l2 i a b h1 h2
    cases l2 with
    | nil => simp at h2
    | cons y ys =>
      cases i with
      | zero =>
        rw [List.get?_cons_zero] at h1 h2
        injection h1 with h1
        injection h2 with h2
        simp [List.zip_cons_cons, h1, h2]
      | succ j =>
        rw [List.get?_cons_succ] at h1 h2
        rw [List.zip_cons_cons, List.get?_cons_succ]
        exact ih ys j a b h1 h2

theorem zip_get?_fst {α β : Type} :
    ∀ (l1 : List α) (l2 : List β) (i : Nat) (p : α × β),
      (l1.zip l2).get? i = some p → l1.get? i = some p.1 ∧ l2.get? i = some p.2 := by
  intro l1
  induction l1 with
  | nil => intro l2 i p h; simp at h
  | cons x xs ih =>
    intro l2 i p h
    cases l2 with
    | nil => simp at h
    | cons y ys =>
      cases i with
      | zero =>
        rw [List.zip_cons_cons, List.get?_cons_zero] at h
        injection h with h
        simp [← h]
      | succ j =>
        rw [List.zip_cons_cons, List.get?_cons_succ] at h
        have := ih ys j p h
        simpa using this

theorem idx_fold_preserve (ddv : DDV) :
    ∀ (pairs : List (Option String × Scalar)) (acc : Record) (key : String),
      (∀ w, ((some key : Option String), w) ∉ pairs) →
      alookup
        (pairs.foldl
          (fun row p =>
            match p.1 with
            | Option.none => row
            | some k => dictInsert row (Scalar.vStr k) (index_cell ddv k p.2))
          acc)
        (Scalar.vStr key)
      = alookup acc (Scalar.vStr key) := by
  intro pairs
  induction pairs with
  | nil => intro acc key h; rfl
  | cons q rest ih =>
    intro acc key h
    obtain ⟨n0, w⟩ := q
    cases n0 with
    | none =>
      simp only [List.foldl_cons]
      exact ih acc key (fun w' hw' => h w' (List.mem_cons_of_mem _ hw'))
    | some k' =>
      have hk' : k' ≠ key := by
        intro hkk
        subst hkk
        exact h w (List.mem_cons_self _ _)
      simp only [List.foldl_cons]
      rw [ih _ key (fun w' hw' => h w' (List.mem_cons_of_mem _ hw'))]
      exact alookup_dictInsert_ne acc (Scalar.vStr k') (Scalar.vStr key) _
        (by simp [hk'.symm])

theorem idx_fold_lookup (ddv : DDV) :
    ∀ (pairs : List (Option String × Scalar)) (acc : Record) (key : String) (v : Scalar),
      ((some key : Option String), v) ∈ pairs →
      (∀ w, ((some key : Option String), w) ∈ pairs → w = v) →
      alookup
        (pairs.foldl
          (fun row p =>
            match p.1 with
            | Option.none => row
            | some k => dictInsert row (Scalar.vStr k) (index_cell ddv k p.2))
          acc)
        (Scalar.vStr key)
      = some (index_cell ddv key v) := by
  intro pairs
  induction pairs with
  | nil => intro acc key v hmem; simp at hmem
  | cons q rest ih =>
    intro acc key v hmem huniq
    obtain ⟨n0, w⟩ := q
    by_cases hrest : ∃ w', ((some key : Option String), w') ∈ rest
    · obtain ⟨w', hw'⟩ := hrest
      have hw'v : w' = v := huniq w' (List.mem_cons_of_mem _ hw')
      subst hw'v
      simp only [List.foldl_cons]
      exact ih _ key w' hw' (fun u hu => huniq u (List.mem_cons_of_mem _ hu))
    · push_neg at hrest
      rcases List.mem_cons.mp hmem with hh | hh
      · injection hh with h1 h2
        subst h1
        subst h2
        simp only [List.foldl_cons]
        rw [idx_fold_preserve ddv rest _ key hrest]
        exact alookup_dictInsert_self acc (Scalar.vStr key) _
      · exact absurd hh (hrest v)

/-- C1 counterexample: on a pivoted table carrying the single metric
collapse marker (the frame name), the leaf accessor appends the metric key
but the row record keys do not contain it, so the accessor path does not
resolve in the record. -/
theorem C1_accessor_agreement_counterexample :
    transform_metric_column_headers
        ⟨[some "$d$day"], [[Scalar.vStr "x"]], [some "$d$p"], [[Scalar.vStr "rep"]],
          [[Scalar.vInt 1]], false, some "$m$votes"⟩ [] []
      = Except.ok [HNode.mk (Scalar.vStr "rep") (some "rep.$m$votes") Option.none Option.none]
    ∧ HasLeaf (HNode.mk (Scalar.vStr "rep") (some "rep.$m$votes") Option.none Option.none)
        "rep.$m$votes"
    ∧ transform_data
        ⟨[some "$d$day"], [[Scalar.vStr "x"]], [some "$d$p"], [[Scalar.vStr "rep"]],
          [[Scalar.vInt 1]], false, some "$m$votes"⟩ [] []
      = Except.ok [[(Scalar.vStr "$d$day", RVal.dict [(RAW_VALUE, RVal.scalar (Scalar.vStr "x"))]),
          (Scalar.vStr "rep", RVal.dict [(RAW_VALUE, RVal.scalar (Scalar.vInt 1)),
            (DISPLAY_KEY, RVal.scalar (Scalar.vInt 1))])]]
    ∧ "rep.$m$votes" = String.intercalate "." ["rep", "$m$votes"]
    ∧ getdeep
        (RVal.dict [(Scalar.vStr "$d$day", RVal.dict [(RAW_VALUE, RVal.scalar (Scalar.vStr "x"))]),
          (Scalar.vStr "rep", RVal.dict [(RAW_VALUE, RVal.scalar (Scalar.vInt 1)),
            (DISPLAY_KEY, RVal.scalar (Scalar.vInt 1))])])
        [Scalar.vStr "rep", Scalar.vStr "$m$votes"] = Option.none
    ∧ getdeep
        (RVal.dict [(Scalar.vStr "$d$day", RVal.dict [(RAW_VALUE, RVal.scalar (Scalar.vStr "x"))]),
          (Scalar.vStr "rep", RVal.dict [(RAW_VALUE, RVal.scalar (Scalar.vInt 1)),
            (DISPLAY_KEY, RVal.scalar (Scalar.vInt 1))])])
        [Scalar.vStr "rep.$m$votes"] = Option.none :=
  ⟨rfl, HasLeaf.leaf _ _ _, rfl, rfl, rfl, rfl⟩

/-- C1 (amended): accessor agreement holds for every pivoted table that
does not carry the single metric collapse marker: every leaf accessor of
the metric header tree splits into dot separated components that resolve
as a key path in every row record of the same table. -/
theorem C1_accessor_agreement (df : Frame) (im : List (Scalar × Item)) (ddv : DDV)
    (ns : List HNode) (recs : List Record)
    (hname : df.name = Option.none)
    (hclen : ∀ t ∈ df.cols, t.length = df.colNames.length)
    (hdlen : ∀ d ∈ df.data, df.cols.length ≤ d.length)
    (hh : transform_metric_column_headers df im ddv = Except.ok ns)
    (hd : transform_data df im ddv = Except.ok recs) :
    ∀ n ∈ ns, ∀ a, HasLeaf n a → ∀ r ∈ recs,
      ∃ comps : List String, a = String.intercalate "." comps ∧
        (getdeep (RVal.dict r) (comps.map Scalar.vStr)).isSome := by
  intro n hn a hleaf r hr
  obtain ⟨t, ht, hj⟩ :=
    makeCols_leaf_accessor im ddv df.name df.colNames df.cols [] ns hclen hh n hn a hleaf
  rw [hname] at hj
  simp only [nameLevels, List.nil_append, List.append_nil] at hj
  obtain ⟨comps, hcomps, ha⟩ := join_levels_ok t a hj
  obtain ⟨p, hp, hrow⟩ := list_mapM_ok_mem hd r hr
  have hp2 : p.2 ∈ df.data := (List.of_mem_zip hp).2
  have hres := transform_row_resolves df.rowNames df.cols im ddv p.1 p.2 r
    df.colNames.length hrow hclen (hdlen p.2 hp2) t ht
  rw [hcomps] at hres
  exact ⟨comps, ha, hres⟩

/-- Witness for C1 on a concrete pivoted table without the collapse
marker: the sole leaf accessor resolves in the sole record. -/
theorem C1_accessor_agreement_witness :
    ∃ comps : List String, "rep" = String.intercalate "." comps ∧
      (getdeep
        (RVal.dict [(Scalar.vStr "$d$day", RVal.dict [(RAW_VALUE, RVal.scalar (Scalar.vStr "x"))]),
          (Scalar.vStr "rep", RVal.dict [(RAW_VALUE, RVal.scalar (Scalar.vInt 1)),
            (DISPLAY_KEY, RVal.scalar (Scalar.vInt 1))])])
        (comps.map Scalar.vStr)).isSome :=
  C1_accessor_agreement
    ⟨[some "$d$day"], [[Scalar.vStr "x"]], [some "$d$p"], [[Scalar.vStr "rep"]],
      [[Scalar.vInt 1]], false, Option.none⟩ [] []
    [HNode.mk (Scalar.vStr "rep") (some "rep") Option.none Option.none]
    [[(Scalar.vStr "$d$day", RVal.dict [(RAW_VALUE, RVal.scalar (Scalar.vStr "x"))]),
      (Scalar.vStr "rep", RVal.dict [(RAW_VALUE, RVal.scalar (Scalar.vInt 1)),
        (DISPLAY_KEY, RVal.scalar (Scalar.vInt 1))])]]
    rfl (by decide) (by decide) rfl rfl
    (HNode.mk (Scalar.vStr "rep") (some "rep") Option.none Option.none)
    (List.mem_singleton.mpr rfl) "rep" (HasLeaf.leaf _ _ _)
    [(Scalar.vStr "$d$day", RVal.dict [(RAW_VALUE, RVal.scalar (Scalar.vStr "x"))]),
      (Scalar.vStr "rep", RVal.dict [(RAW_VALUE, RVal.scalar (Scalar.vInt 1)),
        (DISPLAY_KEY, RVal.scalar (Scalar.vInt 1))])]
    (List.mem_singleton.mpr rfl)

/-- C4 counterexample: a column whose first path component has no
descriptor still gets a display entry, holding the raw scalar verbatim,
contradicting the claim that no display entry is written. -/
theorem C4_missing_descriptor_counterexample :
    alookup ([] : List (Scalar × Item)) (pyKeyHead [Scalar.vStr "x"]) = Option.none
    ∧ column_cell [] (Scalar.vInt 5) [Scalar.vStr "x"]
      = RVal.dict [(RAW_VALUE, RVal.scalar (Scalar.vInt 5)),
          (DISPLAY_KEY, RVal.scalar (Scalar.vInt 5))] :=
  ⟨rfl, rfl⟩

/-- C4 (amended): the per column cell of transform_data always carries the
raw scalar verbatim; when the first path component has no descriptor, the
display entry is the raw value itself and no formatting is applied (the
entry is omitted only for the Python None value); when a descriptor is
found, the display is the value formatter applied with that descriptors
prefix, suffix and precision. -/
theorem C4_missing_descriptor (im : List (Scalar × Item)) (v : Scalar) (k : List Scalar) :
    (alookup im (pyKeyHead k) = Option.none →
       column_cell im v k =
         (if v = Scalar.vNone then RVal.dict [(RAW_VALUE, RVal.scalar v)]
          else RVal.dict [(RAW_VALUE, RVal.scalar v), (DISPLAY_KEY, RVal.scalar v)])) ∧
    (∀ it, alookup im (pyKeyHead k) = some it →
       column_cell im v k = RVal.dict [(RAW_VALUE, RVal.scalar v),
         (DISPLAY_KEY, RVal.scalar (Scalar.vStr (display_value v it.pfx it.sfx it.precision)))]) ∧
    (getdeep (column_cell im v k) [RAW_VALUE] = some (RVal.scalar v)) := by
  refine ⟨?_, ?_, ?_⟩
  · intro hmiss
    unfold column_cell
    rw [hmiss]
  · intro it hit
    unfold column_cell
    rw [hit]
    simp
  · unfold column_cell
    cases halk : alookup im (pyKeyHead k) with
    | some it => simp [getdeep, alookup, RAW_VALUE]
    | none =>
      by_cases hv : v = Scalar.vNone <;> simp [hv, getdeep, alookup, RAW_VALUE]

/-- Witness for C4 at concrete inputs on both branches. -/
theorem C4_missing_descriptor_witness :
    column_cell [] (Scalar.vInt 7) [Scalar.vStr "m"] =
      (if Scalar.vInt 7 = Scalar.vNone then
        RVal.dict [(RAW_VALUE, RVal.scalar (Scalar.vInt 7))]
       else RVal.dict [(RAW_VALUE, RVal.scalar (Scalar.vInt 7)),
        (DISPLAY_KEY, RVal.scalar (Scalar.vInt 7))]) ∧
    column_cell [(Scalar.vStr "m",
        ⟨Scalar.vStr "m", Scalar.vStr "M", some "$", Option.none, Option.none⟩)]
        (Scalar.vInt 7) [Scalar.vStr "m"]
      = RVal.dict [(RAW_VALUE, RVal.scalar (Scalar.vInt 7)),
          (DISPLAY_KEY, RVal.scalar (Scalar.vStr (display_value (Scalar.vInt 7) (some "$")
            Option.none Option.none)))] :=
  ⟨(C4_missing_descriptor [] (Scalar.vInt 7) [Scalar.vStr "m"]).1 rfl,
   (C4_missing_descriptor
      [(Scalar.vStr "m", ⟨Scalar.vStr "m", Scalar.vStr "M", some "$", Option.none, Option.none⟩)]
      (Scalar.vInt 7) [Scalar.vStr "m"]).2.1
     ⟨Scalar.vStr "m", Scalar.vStr "M", some "$", Option.none, Option.none⟩ rfl⟩

/-- C7 counterexample: an index value that is an item map key has its raw
field replaced by the descriptor label, contradicting the claim that raw
stays the original index value and that the label only feeds the display. -/
theorem C7_index_cells_counterexample :
    index_row [(Scalar.vStr "$m$m1",
        ⟨Scalar.vStr "m1", Scalar.vStr "Metric One", Option.none, Option.none, Option.none⟩)]
        [] [some "$d$d"] [Scalar.vStr "$m$m1"]
      = [(Scalar.vStr "$d$d",
          RVal.dict [(RAW_VALUE, RVal.scalar (Scalar.vStr "Metric One"))])]
    ∧ Scalar.vStr "Metric One" ≠ Scalar.vStr "$m$m1" :=
  ⟨rfl, by decide⟩

/-- C7 (amended): per named index level the record carries a cell built
from the relabeled value: a value that is a metric, reference or totals
key is replaced by that descriptor label before the cell is built, so raw
carries the label; otherwise raw is the index value itself; the display
entry comes only from the display value lookup applied to the relabeled
value; unnamed levels are skipped. -/
theorem C7_index_cells (im : List (Scalar × Item)) (ddv : DDV)
    (names : List (Option String)) (idx : List Scalar) (i : Nat) (key : String) (v : Scalar)
    (hn : names.get? i = some (some key))
    (hv : idx.get? i = some v)
    (huniq : ∀ j, names.get? j = some (some key) → j = i) :
    alookup (index_row im ddv names idx) (Scalar.vStr key)
      = some (index_cell ddv key (relabel1 im v))
    ∧ getdeep (index_cell ddv key (relabel1 im v)) [RAW_VALUE]
      = some (RVal.scalar (relabel1 im v))
    ∧ (∀ it, alookup im v = some it → relabel1 im v = it.label)
    ∧ (alookup im v = Option.none → relabel1 im v = v)
    ∧ (∀ d, ddv_lookup ddv key (relabel1 im v) = some d → d ≠ Scalar.vNone →
        getdeep (index_cell ddv key (relabel1 im v)) [DISPLAY_KEY] = some (RVal.scalar d))
    ∧ (ddv_lookup ddv key (relabel1 im v) = Option.none →
        index_cell ddv key (relabel1 im v)
          = RVal.dict [(RAW_VALUE, RVal.scalar (relabel1 im v))])
    ∧ (∀ (rest : List (Option String)) (ddv2 : DDV) (idx2 : List Scalar),
        index_row im ddv2 (Option.none :: rest) idx2 = index_row im ddv2 rest idx2.tail) := by
  refine ⟨?_, ?_, ?_, ?_, ?_, ?_, ?_⟩
  · unfold index_row
    have hrl : (relabel_index im idx).get? i = some (relabel1 im v) := by
      unfold relabel_index
      rw [List.get?_map, hv]
      rfl
    have hmem : ((some key : Option String), relabel1 im v)
        ∈ names.zip (relabel_index im idx) :=
      List.get?_mem (zip_get?_eq names (relabel_index im idx) i _ _ hn hrl)
    refine idx_fold_lookup ddv _ [] key (relabel1 im v) hmem ?_
    intro w hw
    obtain ⟨j, hj⟩ := List.get?_of_mem hw
    obtain ⟨hj1, hj2⟩ := zip_get?_fst names (relabel_index im idx) j _ hj
    have hji : j = i := huniq j hj1
    subst hji
    rw [hrl] at hj2
    injection hj2 with hj2
    exact hj2.symm
  · unfold index_cell
    cases halk : ddv_lookup ddv key (relabel1 im v) with
    | some d =>
      by_cases hd : d = Scalar.vNone <;> simp [hd, getdeep, alookup, RAW_VALUE]
    | none => simp [getdeep, alookup, RAW_VALUE]
  · intro it hit
    unfold relabel1
    rw [hit]
  · intro hmiss
    unfold relabel1
    rw [hmiss]
  · intro d hd hdn
    unfold index_cell
    rw [hd]
    simp [hdn, getdeep, alookup, RAW_VALUE, DISPLAY_KEY]
  · intro hmiss
    unfold index_cell
    rw [hmiss]
  · intro rest ddv2 idx2
    cases idx2 with
    | nil =>
      unfold index_row relabel_index
      simp
    | cons x xs => rfl

/-- Witness for C7 at a concrete one level index. -/
theorem C7_index_cells_witness :
    alookup (index_row [] [] [some "$d$d"] [Scalar.vStr "a"]) (Scalar.vStr "$d$d")
      = some (index_cell [] "$d$d" (relabel1 [] (Scalar.vStr "a"))) :=
  (C7_index_cells [] [] [some "$d$d"] [Scalar.vStr "a"] 0 "$d$d" (Scalar.vStr "a") rfl rfl
    (fun j hj => by
      cases j with
      | zero => rfl
      | succ k => simp at hj)).1

/-! ## Claim C9: transform operates on a private copy -/

theorem list_getD_of_get? {α : Type} (l : List α) (i : Nat) (x d : α)
    (h : l.get? i = some x) : l.getD i d = x := by
  rw [List.get?_eq_getElem?] at h
  simp [List.getD, h]

/-- C9: the store passing transform leaves the callers frame slot
untouched (the copy of reacttable.py line 419 allocates a fresh slot and
every in place step writes only that slot), and its output agrees with the
pure transform of the callers frame value, so the result depends only on
the input value and the shared descriptor values are never written (the
embedding has no operation writing a descriptor). -/
theorem C9_transform_private_copy (items : List MetricDef) (refs : List Reference)
    (pivotDims : List String) (transpose : Bool) (strftime : String → Scalar → Scalar)
    (dims : List Dimension) (frames : List Frame) (callerIdx : Nat) (f : Frame)
    (hf : frames.get? callerIdx = some f)
    (hidx : callerIdx < frames.length) :
    (transform_heap items refs pivotDims transpose strftime dims frames callerIdx).2.get?
        callerIdx = frames.get? callerIdx
    ∧ (transform_heap items refs pivotDims transpose strftime dims frames callerIdx).1
      = transform items refs pivotDims transpose strftime dims f := by
  have hne : frames.length ≠ callerIdx := fun hh => absurd (hh ▸ hidx) (lt_irrefl _)
  unfold transform_heap transform
  rw [hf]
  dsimp only
  cases hsel : select_columns f
      (df_dimension_columns_of dims ++ df_metric_columns_of items refs) with
  | error e =>
    dsimp only
    exact ⟨hf, rfl⟩
  | ok df0 =>
    dsimp only
    have h1 : (frames ++ [clean_frame df0]).get? frames.length = some (clean_frame df0) :=
      List.get?_concat_length frames (clean_frame df0)
    have h1' : (frames ++ [clean_frame df0]).getD frames.length df0 = clean_frame df0 :=
      list_getD_of_get? _ _ _ _ h1
    have hacc : (frames ++ [clean_frame df0]).get? callerIdx = frames.get? callerIdx :=
      List.get?_append hidx
    rw [h1']
    cases hmdv : map_display_values (clean_frame df0) dims with
    | error e =>
      dsimp only
      exact ⟨hacc.trans hf, rfl⟩
    | ok p =>
      obtain ⟨ddv, df2⟩ := p
      dsimp only
      have hlen1 : frames.length < (frames ++ [clean_frame df0]).length := by
        simp
      have h2 : ((frames ++ [clean_frame df0]).set frames.length df2).get? frames.length
          = some df2 := by
        rw [List.get?_set_eq_of_lt]
        exact hlen1
      have h2' : ((frames ++ [clean_frame df0]).set frames.length df2).getD frames.length df2
          = df2 := list_getD_of_get? _ _ _ _ h2
      have hacc2 : ((frames ++ [clean_frame df0]).set frames.length df2).get? callerIdx
          = frames.get? callerIdx := by
        rw [List.get?_set_ne _ _ hne, hacc]
      rw [h2']
      have hlen2 : frames.length
          < ((frames ++ [clean_frame df0]).set frames.length df2).length := by
        simp
      have h3 : (((frames ++ [clean_frame df0]).set frames.length df2).set frames.length
          (format_data_frame strftime df2 dims)).get? frames.length
          = some (format_data_frame strftime df2 dims) := by
        rw [List.get?_set_eq_of_lt]
        exact hlen2
      have h3' : (((frames ++ [clean_frame df0]).set frames.length df2).set frames.length
          (format_data_frame strftime df2 dims)).getD frames.length
          (format_data_frame strftime df2 dims) = format_data_frame strftime df2 dims :=
        list_getD_of_get? _ _ _ _ h3
      have hacc3 : (((frames ++ [clean_frame df0]).set frames.length df2).set frames.length
          (format_data_frame strftime df2 dims)).get? callerIdx = frames.get? callerIdx := by
        rw [List.get?_set_ne _ _ hne, hacc2]
      rw [h3']
      cases hdc : transform_dimension_column_headers
          (pivot_data_frame (format_data_frame strftime df2 dims)
            (pivotDims.map format_dimension_key) transpose) dims with
      | error e =>
        dsimp only
        exact ⟨hacc3.trans hf, rfl⟩
      | ok dimCols =>
        dsimp only
        cases hmc : transform_metric_column_headers
            (pivot_data_frame (format_data_frame strftime df2 dims)
              (pivotDims.map format_dimension_key) transpose)
            (dictInsert (item_map_of items refs) TOTALS_VALUE TotalsItem) ddv with
        | error e =>
          dsimp only
          exact ⟨hacc3.trans hf, rfl⟩
        | ok metCols =>
          dsimp only
          cases hdt : transform_data
              (pivot_data_frame (format_data_frame strftime df2 dims)
                (pivotDims.map format_dimension_key) transpose)
              (dictInsert (item_map_of items refs) TOTALS_VALUE TotalsItem) ddv with
          | error e =>
            dsimp only
            exact ⟨hacc3.trans hf, rfl⟩
          | ok data =>
            dsimp only
            exact ⟨hacc3.trans hf, rfl⟩

/-- Witness for C9 on a concrete one dimension, one metric frame. -/
theorem C9_transform_private_copy_witness :
    (transform_heap [⟨"votes", "Votes", Option.none, Option.none, Option.none⟩] [] [] false
        (fun _ v => v) [⟨"party", "Party", false, "", Option.none, false, ""⟩]
        [⟨[some "$d$party"], [[Scalar.vStr "d"]], [Option.none], [[Scalar.vStr "$m$votes"]],
          [[Scalar.vInt 1]], false, Option.none⟩] 0).2.get? 0
      = [(⟨[some "$d$party"], [[Scalar.vStr "d"]], [Option.none], [[Scalar.vStr "$m$votes"]],
          [[Scalar.vInt 1]], false, Option.none⟩ : Frame)].get? 0
    ∧ (transform_heap [⟨"votes", "Votes", Option.none, Option.none, Option.none⟩] [] [] false
        (fun _ v => v) [⟨"party", "Party", false, "", Option.none, false, ""⟩]
        [⟨[some "$d$party"], [[Scalar.vStr "d"]], [Option.none], [[Scalar.vStr "$m$votes"]],
          [[Scalar.vInt 1]], false, Option.none⟩] 0).1
      = transform [⟨"votes", "Votes", Option.none, Option.none, Option.none⟩] [] [] false
          (fun _ v => v) [⟨"party", "Party", false, "", Option.none, false, ""⟩]
          ⟨[some "$d$party"], [[Scalar.vStr "d"]], [Option.none], [[Scalar.vStr "$m$votes"]],
            [[Scalar.vInt 1]], false, Option.none⟩ :=
  C9_transform_private_copy [⟨"votes", "Votes", Option.none, Option.none, Option.none⟩] [] []
    false (fun _ v => v) [⟨"party", "Party", false, "", Option.none, false, ""⟩]
    [⟨[some "$d$party"], [[Scalar.vStr "d"]], [Option.none], [[Scalar.vStr "$m$votes"]],
      [[Scalar.vInt 1]], false, Option.none⟩] 0
    ⟨[some "$d$party"], [[Scalar.vStr "d"]], [Option.none], [[Scalar.vStr "$m$votes"]],
      [[Scalar.vInt 1]], false, Option.none⟩ rfl (by decide)

/-! ## Claim C10 support -/

theorem list_mapM_ok_get? {α β : Type} {f : α → Except String β} :
    ∀ {xs : List α} {ys : List β}, xs.mapM f = Except.ok ys →
      ∀ i x, xs.get? i = some x → ∃ y, ys.get? i = some y ∧ f x = Except.ok y := by
  intro xs
  induction xs with
  | nil =>
    intro ys h i x hx
    simp at hx
  | cons a as ih =>
    intro ys h i x hx
    rw [List.mapM_cons] at h
    obtain ⟨b, hb, h2⟩ := except_bind_ok h
    obtain ⟨bs, hbs, h3⟩ := except_bind_ok h2
    simp [pure, Except.pure] at h3
    subst h3
    cases i with
    | zero =>
      rw [List.get?_cons_zero] at hx
      injection hx with hx
      exact ⟨b, rfl, hx ▸ hb⟩
    | succ j =>
      rw [List.get?_cons_succ] at hx
      obtain ⟨y, hy, hfy⟩ := ih hbs j x hx
      exact ⟨y, by rw [List.get?_cons_succ]; exact hy, hfy⟩

theorem findIdx?_some_get? {α : Type} (p : α → Bool) :
    ∀ (l : List α) (s j : Nat), List.findIdx? p l s = some j →
      s ≤ j ∧ ∃ x, l.get? (j - s) = some x ∧ p x = true := by
  intro l
  induction l with
  | nil =>
    intro s j h
    simp [List.findIdx?] at h
  | cons a as ih =>
    intro s j h
    rw [List.findIdx?_cons] at h
    by_cases hp : p a
    · simp [hp] at h
      subst h
      exact ⟨Nat.le_refl _, a, by simp, hp⟩
    · simp [hp] at h
      obtain ⟨a, ha, haj⟩ := h
      obtain ⟨_, x, hx, hpx⟩ := ih 0 a ha
      refine ⟨by omega, x, ?_, hpx⟩
      have : j - s = a + 1 := by omega
      rw [this, List.get?_cons_succ]
      simpa using hx

theorem get?_lt_length {α : Type} (l : List α) (i : Nat) (x : α) (h : l.get? i = some x) :
    i < l.length := by
  by_contra hc
  rw [List.get?_eq_none.mpr (Nat.le_of_not_lt hc)] at h
  exact Option.noConfusion h

theorem nodup_get?_inj {α : Type} (l : List α) (h : l.Nodup) (i j : Nat) (x : α)
    (h1 : l.get? i = some x) (h2 : l.get? j = some x) : i = j :=
  List.get?_inj (get?_lt_length l i x h1) h (h1.trans h2.symm)

theorem select_columns_ok (f : Frame) (names : List String) (f0 : Frame)
    (h : select_columns f names = Except.ok f0) :
    ∃ js : List Nat,
      names.mapM
        (fun nm =>
          match f.cols.findIdx? (fun c => c = [Scalar.vStr nm]) with
          | some j => Except.ok j
          | Option.none => Except.error "KeyError: missing requested column") = Except.ok js
      ∧ f0 = { f with
                cols := js.map (fun j => f.cols.getD j []),
                data := f.data.map (fun r => js.map (fun j => r.getD j Scalar.vNone)) } := by
  unfold select_columns at h
  cases hm : names.mapM
      (fun nm =>
        match f.cols.findIdx? (fun c => c = [Scalar.vStr nm]) with
        | some j => Except.ok j
        | Option.none => Except.error "KeyError: missing requested column") with
  | error e =>
    rw [hm] at h
    exact absurd h (by simp)
  | ok js =>
    rw [hm] at h
    injection h with h
    exact ⟨js, rfl, h.symm⟩

/-- With no display field dimensions, map_display_values leaves the
working frame unchanged. -/
theorem mdv_no_display (dims : List Dimension) (hnd : ∀ d ∈ dims, d.hasDisplayField = false) :
    ∀ (acc : DDV × Frame), ∃ ddv, dims.foldlM (fun a d => map_display_values_dim a d) acc
      = Except.ok (ddv, acc.2) := by
  induction dims with
  | nil =>
    intro acc
    exact ⟨acc.1, rfl⟩
  | cons d rest ih =>
    intro acc
    have hd : d.hasDisplayField = false := hnd d (List.mem_cons_self _ _)
    have hstep : ∀ (a : DDV × Frame), ∃ ddv1, map_display_values_dim a d = Except.ok (ddv1, a.2) := by
      intro a
      unfold map_display_values_dim
      rw [hd]
      cases hdv : d.displayValues with
      | some dv =>
        exact ⟨dictInsert a.1 (format_dimension_key d.key) dv, rfl⟩
      | none => exact ⟨a.1, rfl⟩
    obtain ⟨ddv1, h1⟩ := hstep acc
    obtain ⟨ddv2, h2⟩ := ih (fun x hx => hnd x (List.mem_cons_of_mem _ hx)) (ddv1, acc.2)
    refine ⟨ddv2, ?_⟩
    rw [List.foldlM_cons, h1]
    simpa [Bind.bind, Except.bind] using h2

theorem col_fold_preserve (im : List (Scalar × Item)) :
    ∀ (pairs : List (List Scalar × Scalar)) (acc acc' : Record) (key : String),
      (∀ p ∈ pairs, ∃ nm : String, p.1 = [Scalar.vStr nm] ∧ nm ≠ key) →
      pairs.foldlM (fun row p => setdeepattr row p.1 (column_cell im p.2 p.1)) acc
        = Except.ok acc' →
      alookup acc' (Scalar.vStr key) = alookup acc (Scalar.vStr key) := by
  intro pairs
  induction pairs with
  | nil =>
    intro acc acc' key hall h
    have : acc = acc' := by simpa [List.foldlM, pure, Except.pure] using h
    rw [this]
  | cons q ps ih =>
    intro acc acc' key hall h
    rw [List.foldlM_cons] at h
    obtain ⟨acc1, h1, h2⟩ := except_bind_ok h
    obtain ⟨nm, hnm, hne⟩ := hall q (List.mem_cons_self _ _)
    rw [hnm] at h1
    simp only [setdeepattr, Except.ok.injEq] at h1
    subst h1
    rw [ih _ _ key (fun p hp => hall p (List.mem_cons_of_mem _ hp)) h2]
    exact alookup_dictInsert_ne acc (Scalar.vStr nm) (Scalar.vStr key) _ (by simp [hne.symm])

theorem col_fold_lookup (im : List (Scalar × Item)) :
    ∀ (pairs : List (List Scalar × Scalar)) (acc acc' : Record) (key : String) (v : Scalar),
      (∀ p ∈ pairs, ∃ nm : String, p.1 = [Scalar.vStr nm]) →
      ([Scalar.vStr key], v) ∈ pairs →
      (∀ w, ([Scalar.vStr key], w) ∈ pairs → w = v) →
      pairs.foldlM (fun row p => setdeepattr row p.1 (column_cell im p.2 p.1)) acc
        = Except.ok acc' →
      alookup acc' (Scalar.vStr key) = some (column_cell im v [Scalar.vStr key]) := by
  intro pairs
  induction pairs with
  | nil =>
    intro acc acc' key v hall hmem
    simp at hmem
  | cons q ps ih =>
    intro acc acc' key v hall hmem huniq h
    rw [List.foldlM_cons] at h
    obtain ⟨acc1, h1, h2⟩ := except_bind_ok h
    by_cases hrest : ∃ w', ([Scalar.vStr key], w') ∈ ps
    · obtain ⟨w', hw'⟩ := hrest
      have hw'v : w' = v := huniq w' (List.mem_cons_of_mem _ hw')
      subst hw'v
      exact ih acc1 acc' key w' (fun p hp => hall p (List.mem_cons_of_mem _ hp)) hw'
        (fun u hu => huniq u (List.mem_cons_of_mem _ hu)) h2
    · push_neg at hrest
      rcases List.mem_cons.mp hmem with hh | hh
      · obtain ⟨t, w⟩ := q
        injection hh with hht hhw
        subst hht
        subst hhw
        simp only [setdeepattr, Except.ok.injEq] at h1
        subst h1
        have hps : ∀ p ∈ ps, ∃ nm : String, p.1 = [Scalar.vStr nm] ∧ nm ≠ key := by
          intro p hp
          obtain ⟨nm, hnm⟩ := hall p (List.mem_cons_of_mem _ hp)
          refine ⟨nm, hnm, ?_⟩
          intro hkey
          subst hkey
          exact hrest p.2 (by
            have : p = ([Scalar.vStr nm], p.2) := by
              cases p
              simp at hnm
              simp [hnm]
            rw [← this]
            exact hp)
        rw [col_fold_preserve im ps _ acc' key hps h2]
        exact alookup_dictInsert_self acc (Scalar.vStr key) _
      · exact absurd hh (hrest v)

theorem list_mapM_ok_length {α β : Type} {f : α → Except String β} :
    ∀ {xs : List α} {ys : List β}, xs.mapM f = Except.ok ys → ys.length = xs.length := by
  intro xs
  induction xs with
  | nil =>
    intro ys h
    simp [List.mapM, List.mapM.loop, pure, Except.pure] at h
    simp [← h]
  | cons a as ih =>
    intro ys h
    rw [List.mapM_cons] at h
    obtain ⟨b, hb, h2⟩ := except_bind_ok h
    obtain ⟨bs, hbs, h3⟩ := except_bind_ok h2
    simp [pure, Except.pure] at h3
    subst h3
    simp [ih hbs]

theorem list_mapM_ok_get?_rev {α β : Type} {f : α → Except String β} :
    ∀ {xs : List α} {ys : List β}, xs.mapM f = Except.ok ys →
      ∀ i y, ys.get? i = some y → ∃ x, xs.get? i = some x ∧ f x = Except.ok y := by
  intro xs
  induction xs with
  | nil =>
    intro ys h i y hy
    simp [List.mapM, List.mapM.loop, pure, Except.pure] at h
    subst h
    simp at hy
  | cons a as ih =>
    intro ys h i y hy
    rw [List.mapM_cons] at h
    obtain ⟨b, hb, h2⟩ := except_bind_ok h
    obtain ⟨bs, hbs, h3⟩ := except_bind_ok h2
    simp [pure, Except.pure] at h3
    subst h3
    cases i with
    | zero =>
      rw [List.get?_cons_zero] at hy
      injection hy with hy
      exact ⟨a, rfl, hy ▸ hb⟩
    | succ j =>
      rw [List.get?_cons_succ] at hy
      obtain ⟨x, hx, hfx⟩ := ih hbs j y hy
      exact ⟨x, by rw [List.get?_cons_succ]; exact hx, hfx⟩

theorem column_cell_raw (im : List (Scalar × Item)) (v : Scalar) (k : List Scalar) :
    getdeep (column_cell im v k) [RAW_VALUE] = some (RVal.scalar v) := by
  unfold column_cell
  cases halk : alookup im (pyKeyHead k) with
  | some it => simp [getdeep, alookup, RAW_VALUE]
  | none =>
    by_cases hv : v = Scalar.vNone <;> simp [hv, getdeep, alookup, RAW_VALUE]

/-- C10: before any transformation the transform substitutes the string
NaN for every null cell and the string Inf for both infinities in the
selected columns, and these substituted values surface verbatim as the raw
values of the row records.  Stated for the plain (no pivot, no transpose,
no display field dimensions) configuration: for every output row and every
metric column, the record cell raw value is exactly the substitution
applied to the corresponding input cell. -/
theorem C10_null_inf_substitution
    (items : List MetricDef) (refs : List Reference) (strftime : String → Scalar → Scalar)
    (dims : List Dimension) (f : Frame) (out : RTResult)
    (hnd : ∀ d ∈ dims, d.hasDisplayField = false)
    (hnodup : (df_metric_columns_of items refs).Nodup)
    (h : transform items refs [] false strftime dims f = Except.ok out) :
    (∀ c, pdIsNull c = true → clean_cell c = Scalar.vStr "NaN") ∧
    (∀ b, clean_cell (Scalar.vInf b) = Scalar.vStr "Inf") ∧
    (∀ i r, out.data.get? i = some r →
      ∀ k mk, (df_metric_columns_of items refs).get? k = some mk →
        ∃ (origRow : List Scalar) (j : Nat),
          f.data.get? i = some origRow ∧
          List.findIdx? (fun c => c = [Scalar.vStr mk]) f.cols = some j ∧
          alookup r (Scalar.vStr mk)
            = some (column_cell (dictInsert (item_map_of items refs) TOTALS_VALUE TotalsItem)
                (clean_cell (origRow.getD j Scalar.vNone)) [Scalar.vStr mk]) ∧
          getdeep
            (column_cell (dictInsert (item_map_of items refs) TOTALS_VALUE TotalsItem)
              (clean_cell (origRow.getD j Scalar.vNone)) [Scalar.vStr mk]) [RAW_VALUE]
            = some (RVal.scalar (clean_cell (origRow.getD j Scalar.vNone)))) := by
  refine ⟨?_, ?_, ?_⟩
  · intro c hc
    cases c <;> simp_all [pdIsNull, clean_cell]
  · intro b
    rfl
  · intro i r hr k mk hmk
    have hdimcols : df_dimension_columns_of dims = [] := by
      unfold df_dimension_columns_of
      have hfil : dims.filter (fun d => d.hasDisplayField) = [] :=
        List.filter_eq_nil.mpr (fun d hd => by simp [hnd d hd])
      rw [hfil]
      rfl
    unfold transform at h
    rw [hdimcols] at h
    simp only [List.nil_append] at h
    cases hsel : select_columns f (df_metric_columns_of items refs) with
    | error e =>
      rw [hsel] at h
      dsimp only at h
      exact Except.noConfusion h
    | ok df0 =>
      rw [hsel] at h
      dsimp only at h
      obtain ⟨ddv0, hmdv⟩ := mdv_no_display dims hnd ([], clean_frame df0)
      have hmdv' : map_display_values (clean_frame df0) dims
          = Except.ok (ddv0, clean_frame df0) := hmdv
      rw [hmdv'] at h
      dsimp only at h
      have hpiv : pivot_data_frame (format_data_frame strftime (clean_frame df0) dims)
          (([] : List String).map format_dimension_key) false
          = format_data_frame strftime (clean_frame df0) dims := by
        unfold pivot_data_frame
        simp
      rw [hpiv] at h
      cases hdc : transform_dimension_column_headers
          (format_data_frame strftime (clean_frame df0) dims) dims with
      | error e =>
        rw [hdc] at h
        dsimp only at h
        exact Except.noConfusion h
      | ok dimCols =>
        rw [hdc] at h
        dsimp only at h
        cases hmc : transform_metric_column_headers
            (format_data_frame strftime (clean_frame df0) dims)
            (dictInsert (item_map_of items refs) TOTALS_VALUE TotalsItem) ddv0 with
        | error e =>
          rw [hmc] at h
          dsimp only at h
          exact Except.noConfusion h
        | ok metCols =>
          rw [hmc] at h
          dsimp only at h
          cases hdt : transform_data
              (format_data_frame strftime (clean_frame df0) dims)
              (dictInsert (item_map_of items refs) TOTALS_VALUE TotalsItem) ddv0 with
          | error e =>
            rw [hdt] at h
            dsimp only at h
            exact Except.noConfusion h
          | ok data =>
            rw [hdt] at h
            dsimp only at h
            injection h with h
            have hout : out.data = data := by rw [← h]
            rw [hout] at hr
            obtain ⟨js, hjs, hdf0⟩ := select_columns_ok f _ df0 hsel
            subst hdf0
            have hdt' : ((format_data_frame strftime
                  (clean_frame { f with
                    cols := js.map (fun j => f.cols.getD j []),
                    data := f.data.map (fun r => js.map (fun j => r.getD j Scalar.vNone))
                  }) dims).rows.zip
                (format_data_frame strftime
                  (clean_frame { f with
                    cols := js.map (fun j => f.cols.getD j []),
                    data := f.data.map (fun r => js.map (fun j => r.getD j Scalar.vNone))
                  }) dims).data).mapM
                (fun p => transform_row
                  (format_data_frame strftime
                    (clean_frame { f with
                      cols := js.map (fun j => f.cols.getD j []),
                      data := f.data.map (fun r => js.map (fun j => r.getD j Scalar.vNone))
                    }) dims).rowNames
                  (format_data_frame strftime
                    (clean_frame { f with
                      cols := js.map (fun j => f.cols.getD j []),
                      data := f.data.map (fun r => js.map (fun j => r.getD j Scalar.vNone))
                    }) dims).cols
                  (dictInsert (item_map_of items refs) TOTALS_VALUE TotalsItem) ddv0 p.1 p.2)
                = Except.ok data := hdt
            obtain ⟨p, hp, hrowok⟩ := list_mapM_ok_get?_rev hdt' i r hr
            obtain ⟨hp1, hp2⟩ := zip_get?_fst _ _ _ _ hp
            have hp2' : ((f.data.map (fun r => js.map (fun j => r.getD j Scalar.vNone))).map
                (fun r => r.map clean_cell)).get? i = some p.2 := hp2
            rw [List.get?_map, List.get?_map] at hp2'
            cases hfd : f.data.get? i with
            | none =>
              rw [hfd] at hp2'
              exact Option.noConfusion hp2'
            | some origRow =>
              rw [hfd] at hp2'
              injection hp2' with hp2'
              dsimp only at hp2'
              obtain ⟨j, hjk, hjok⟩ := list_mapM_ok_get? hjs k mk hmk
              cases hfi : List.findIdx? (fun c => c = [Scalar.vStr mk]) f.cols with
              | none =>
                rw [hfi] at hjok
                exact Except.noConfusion hjok
              | some j' =>
                rw [hfi] at hjok
                injection hjok with hjok
                subst hjok
                have hpick : ∀ (k' : Nat) (nm' : String) (j' : Nat),
                    (df_metric_columns_of items refs).get? k' = some nm' →
                    js.get? k' = some j' → f.cols.getD j' [] = [Scalar.vStr nm'] := by
                  intro k' nm' j'' hnm' hj''
                  obtain ⟨y, hy, hyok⟩ := list_mapM_ok_get? hjs k' nm' hnm'
                  rw [hj''] at hy
                  injection hy with hy
                  subst hy
                  cases hfi' : List.findIdx? (fun c => c = [Scalar.vStr nm']) f.cols with
                  | none =>
                    rw [hfi'] at hyok
                    exact Except.noConfusion hyok
                  | some jj =>
                    rw [hfi'] at hyok
                    injection hyok with hyok
                    subst hyok
                    obtain ⟨-, x, hx, hpx⟩ := findIdx?_some_get? _ f.cols 0 jj hfi'
                    simp only [Nat.sub_zero] at hx
                    have hxval : x = [Scalar.vStr nm'] := of_decide_eq_true hpx
                    subst hxval
                    exact list_getD_of_get? _ _ _ _ hx
                have hpickj : f.cols.getD j' [] = [Scalar.vStr mk] := hpick k mk j' hmk hjk
                have hjlen : js.length = (df_metric_columns_of items refs).length :=
                  list_mapM_ok_length hjs
                have hcolk : (js.map (fun jx => f.cols.getD jx [])).get? k
                    = some [Scalar.vStr mk] := by
                  rw [List.get?_map, hjk]
                  show some (f.cols.getD j' []) = some [Scalar.vStr mk]
                  rw [hpickj]
                have hvalk : p.2.get? k
                    = some (clean_cell (origRow.getD j' Scalar.vNone)) := by
                  rw [← hp2', List.get?_map, List.get?_map, hjk]
                  rfl
                have hpair := zip_get?_eq _ p.2 k _ _ hcolk hvalk
                have hmem := List.get?_mem hpair
                have hall : ∀ q ∈ (js.map (fun jx => f.cols.getD jx [])).zip p.2,
                    ∃ nm : String, q.1 = [Scalar.vStr nm] := by
                  intro q hq
                  have hq1 : q.1 ∈ js.map (fun jx => f.cols.getD jx []) :=
                    (List.of_mem_zip hq).1
                  rw [List.mem_map] at hq1
                  obtain ⟨jx, hjx, hjq⟩ := hq1
                  obtain ⟨k', hk'⟩ := List.get?_of_mem hjx
                  have hk'lt : k' < (df_metric_columns_of items refs).length := by
                    have := get?_lt_length js k' jx hk'
                    omega
                  cases hnm' : (df_metric_columns_of items refs).get? k' with
                  | none =>
                    rw [List.get?_eq_none] at hnm'
                    omega
                  | some nm' =>
                    refine ⟨nm', ?_⟩
                    rw [← hjq]
                    exact hpick k' nm' jx hnm' hk' 
                have huniq : ∀ w, ([Scalar.vStr mk], w)
                    ∈ (js.map (fun jx => f.cols.getD jx [])).zip p.2 →
                    w = clean_cell (origRow.getD j' Scalar.vNone) := by
                  intro w hw
                  obtain ⟨k'', hk''⟩ := List.get?_of_mem hw
                  obtain ⟨hc'', hv''⟩ := zip_get?_fst _ _ _ _ hk''
                  rw [List.get?_map] at hc''
                  cases hjk'' : js.get? k'' with
                  | none =>
                    rw [hjk''] at hc''
                    exact Option.noConfusion hc''
                  | some j'' =>
                    rw [hjk''] at hc''
                    injection hc'' with hc''
                    dsimp only at hc''
                    have hk''lt : k'' < (df_metric_columns_of items refs).length := by
                      have := get?_lt_length js k'' j'' hjk''
                      omega
                    cases hnm'' : (df_metric_columns_of items refs).get? k'' with
                    | none =>
                      rw [List.get?_eq_none] at hnm''
                      omega
                    | some nm'' =>
                      have hpk'' := hpick k'' nm'' j'' hnm'' hjk''
                      rw [hpk''] at hc''
                      have hnmmk : nm'' = mk := by
                        injection hc'' with hh1 hh2
                        injection hh1
                      subst hnmmk
                      have hkk : k'' = k :=
                        nodup_get?_inj _ hnodup k'' k nm'' hnm'' hmk
                      subst hkk
                      rw [hvalk] at hv''
                      injection hv'' with hv''
                      exact hv''.symm
                have hrowfold : ((js.map (fun jx => f.cols.getD jx [])).zip p.2).foldlM
                    (fun row q => setdeepattr row q.1
                      (column_cell (dictInsert (item_map_of items refs) TOTALS_VALUE TotalsItem)
                        q.2 q.1))
                    (index_row (dictInsert (item_map_of items refs) TOTALS_VALUE TotalsItem)
                      ddv0
                      (format_data_frame strftime
                        (clean_frame { f with
                          cols := js.map (fun jx => f.cols.getD jx []),
                          data := f.data.map (fun r => js.map (fun jx => r.getD jx Scalar.vNone))
                        }) dims).rowNames p.1)
                    = Except.ok r := hrowok
                have hlook := col_fold_lookup
                  (dictInsert (item_map_of items refs) TOTALS_VALUE TotalsItem)
                  ((js.map (fun jx => f.cols.getD jx [])).zip p.2) _ r mk
                  (clean_cell (origRow.getD j' Scalar.vNone)) hall hmem huniq hrowfold
                exact ⟨origRow, j', rfl, rfl, hlook, column_cell_raw _ _ _⟩

/-- Witness for C10 on a concrete frame with a NaN metric cell: the raw
value surfaces as the string NaN. -/
theorem C10_null_inf_substitution_witness :
    ∃ (origRow : List Scalar) (j : Nat),
      (⟨[some "$d$party"], [[Scalar.vStr "d"]], [Option.none],
        [[Scalar.vStr "$m$votes"]], [[Scalar.vNaN]], false, Option.none⟩ : Frame).data.get? 0
        = some origRow ∧
      List.findIdx? (fun c => c = [Scalar.vStr "$m$votes"])
        (⟨[some "$d$party"], [[Scalar.vStr "d"]], [Option.none],
          [[Scalar.vStr "$m$votes"]], [[Scalar.vNaN]], false, Option.none⟩ : Frame).cols
        = some j ∧
      alookup [(Scalar.vStr "$d$party", RVal.dict [(RAW_VALUE, RVal.scalar (Scalar.vStr "d"))]),
          (Scalar.vStr "$m$votes", RVal.dict [(RAW_VALUE, RVal.scalar (Scalar.vStr "NaN")),
            (DISPLAY_KEY, RVal.scalar (Scalar.vStr "NaN"))])]
          (Scalar.vStr "$m$votes")
        = some (column_cell
            (dictInsert (item_map_of
              [⟨"votes", "Votes", Option.none, Option.none, Option.none⟩] [])
              TOTALS_VALUE TotalsItem)
            (clean_cell (origRow.getD j Scalar.vNone)) [Scalar.vStr "$m$votes"]) ∧
      getdeep (column_cell
            (dictInsert (item_map_of
              [⟨"votes", "Votes", Option.none, Option.none, Option.none⟩] [])
              TOTALS_VALUE TotalsItem)
            (clean_cell (origRow.getD j Scalar.vNone)) [Scalar.vStr "$m$votes"]) [RAW_VALUE]
        = some (RVal.scalar (clean_cell (origRow.getD j Scalar.vNone))) :=
  (C10_null_inf_substitution
    [⟨"votes", "Votes", Option.none, Option.none, Option.none⟩] [] (fun _ v => v)
    [⟨"party", "Party", false, "", Option.none, false, ""⟩]
    ⟨[some "$d$party"], [[Scalar.vStr "d"]], [Option.none],
      [[Scalar.vStr "$m$votes"]], [[Scalar.vNaN]], false, Option.none⟩
    ⟨[HNode.mk (Scalar.vStr "Party") (some "$d$party") Option.none Option.none,
        HNode.mk (Scalar.vStr "Votes") (some "$m$votes") Option.none Option.none],
      [[(Scalar.vStr "$d$party", RVal.dict [(RAW_VALUE, RVal.scalar (Scalar.vStr "d"))]),
        (Scalar.vStr "$m$votes", RVal.dict [(RAW_VALUE, RVal.scalar (Scalar.vStr "NaN")),
          (DISPLAY_KEY, RVal.scalar (Scalar.vStr "NaN"))])]]⟩
    (by decide) (by decide) rfl).2.2 0
    [(Scalar.vStr "$d$party", RVal.dict [(RAW_VALUE, RVal.scalar (Scalar.vStr "d"))]),
      (Scalar.vStr "$m$votes", RVal.dict [(RAW_VALUE, RVal.scalar (Scalar.vStr "NaN")),
        (DISPLAY_KEY, RVal.scalar (Scalar.vStr "NaN"))])]
    rfl 0 "$m$votes" rfl

/-! ## Claim C3 support -/

theorem findIdx?_isSome_of_mem {α : Type} (p : α → Bool) :
    ∀ (l : List α) (s : Nat), (∃ x ∈ l, p x = true) → (List.findIdx? p l s).isSome := by
  intro l
  induction l with
  | nil =>
    intro s h
    simp at h
  | cons a as ih =>
    intro s h
    rw [List.findIdx?_cons]
    by_cases hp : p a
    · simp [hp]
    · obtain ⟨x, hx, hpx⟩ := h
      rcases List.mem_cons.mp hx with hx | hx
      · subst hx
        exact absurd hpx hp
      · simp only [hp, if_false]
        exact ih (s + 1) ⟨x, hx, hpx⟩

theorem fold_dictInsert_keys {α β : Type} [DecidableEq α] :
    ∀ (pairs : List (α × β)) (acc : List (α × β)) (k : α),
      k ∈ (pairs.foldl (fun m p => dictInsert m p.1 p.2) acc).map Prod.fst
      ↔ k ∈ acc.map Prod.fst ∨ k ∈ pairs.map Prod.fst := by
  intro pairs
  induction pairs with
  | nil =>
    intro acc k
    simp
  | cons p ps ih =>
    intro acc k
    rw [List.foldl_cons]
    rw [ih (dictInsert acc p.1 p.2) k]
    rw [mem_keys_dictInsert]
    simp [List.map_cons]
    tauto

theorem metric_key_mem_im0 (items : List MetricDef) (refs : List Reference) (mk : String)
    (h : mk ∈ df_metric_columns_of items refs) :
    Scalar.vStr mk ∈ (item_map_of items refs).map Prod.fst := by
  unfold df_metric_columns_of at h
  rw [List.mem_filterMap] at h
  obtain ⟨p, hp, hex⟩ := h
  cases hfst : p.1 with
  | vStr s =>
    rw [hfst] at hex
    simp at hex
    subst hex
    rw [← hfst]
    exact List.mem_map_of_mem Prod.fst hp
  | vNone => rw [hfst] at hex; simp at hex
  | vNaN => rw [hfst] at hex; simp at hex
  | vBool bv => rw [hfst] at hex; simp at hex
  | vInt n => rw [hfst] at hex; simp at hex
  | vFloat q => rw [hfst] at hex; simp at hex
  | vInf neg => rw [hfst] at hex; simp at hex

theorem fmk_ne_totals (k : String) : Scalar.vStr (format_metric_key k) ≠ TOTALS_VALUE := by
  intro h
  injection h with h
  have hd := congrArg String.data h
  simp [format_metric_key, String.data_append, TOTALS_VALUE] at hd

theorem intercalate_singleton (a : String) : String.intercalate "." [a] = a := by
  simp [String.intercalate, String.intercalate.go]

/-- The flat metrics level headers: one leaf per metric column, header
from the item label, accessor the column key, no totals marker. -/
theorem metric_flat_headers (im : List (Scalar × Item)) (ddv : DDV) :
    ∀ (mks : List String),
      (∀ mk ∈ mks, (alookup im (Scalar.vStr mk)).isSome) →
      (∀ mk ∈ mks, Scalar.vStr mk ≠ TOTALS_VALUE) →
      ∃ metCols,
        makeCols im ddv Option.none [some metrics_dimension_key]
          (mks.map (fun mk => [Scalar.vStr mk])) [] = Except.ok metCols
        ∧ metCols.length = mks.length
        ∧ ∀ (k : Nat) (mk : String), mks.get? k = some mk →
            ∃ it, alookup im (Scalar.vStr mk) = some it ∧
              metCols.get? k
                = some (HNode.mk it.label (some mk) Option.none Option.none) := by
  intro mks
  induction mks with
  | nil =>
    intro hsome hnt
    refine ⟨[], rfl, rfl, ?_⟩
    intro k mk hmk
    simp at hmk
  | cons mk mks ih =>
    intro hsome hnt
    obtain ⟨metCols, hmc, hlen, hget⟩ := ih
      (fun x hx => hsome x (List.mem_cons_of_mem _ hx))
      (fun x hx => hnt x (List.mem_cons_of_mem _ hx))
    have hks : (alookup im (Scalar.vStr mk)).isSome := hsome mk (List.mem_cons_self _ _)
    obtain ⟨it, hit⟩ := Option.isSome_iff_exists.mp hks
    have hne : ¬ (Scalar.vStr mk = TOTALS_VALUE) := hnt mk (List.mem_cons_self _ _)
    refine ⟨HNode.mk it.label (some mk) Option.none Option.none :: metCols, ?_, by simp [hlen], ?_⟩
    · rw [makeCols_cons]
      have hgr : mkGroups [some metrics_dimension_key]
          ((mk :: mks).map (fun x => [Scalar.vStr x]))
          = (Scalar.vStr mk, (Option.none : Option (List (List Scalar))))
            :: mkGroups [some metrics_dimension_key] (mks.map (fun x => [Scalar.vStr x])) := by
        simp [mkGroups, headScalar]
      rw [hgr]
      rw [makeCols_cons] at hmc
      simp only [makeColsStep, get_header, hit, hne]
      simp only [if_true, true_or, if_pos]
      have hj : join_levels ([] ++ [Scalar.vStr mk] ++ nameLevels Option.none)
          = Except.ok mk := by
        simp [join_levels, nameLevels, List.mapM_cons, List.mapM, List.mapM.loop, pure,
          Except.pure, Bind.bind, Except.bind, Except.map, intercalate_singleton]
      rw [hj]
      simp only [Bind.bind, Except.bind, hmc, hne, if_false, pure, Except.pure]
    · intro k mk' hmk'
      cases k with
      | zero =>
        rw [List.get?_cons_zero] at hmk'
        injection hmk' with hmk'
        subst hmk'
        exact ⟨it, hit, rfl⟩
      | succ kk =>
        rw [List.get?_cons_succ] at hmk'
        obtain ⟨it', hit', hg⟩ := hget kk mk' hmk'
        exact ⟨it', hit', by rw [List.get?_cons_succ]; exact hg⟩

theorem makeCols_empty_tuples (im : List (Scalar × Item)) (ddv : DDV) (nm : Option String) :
    ∀ (names : List (Option String)), names ≠ [] → ∀ prev,
      makeCols im ddv nm names [] prev = Except.ok [] := by
  intro names h prev
  cases names with
  | nil => exact absurd rfl h
  | cons a rest =>
    rw [makeCols_cons]
    have hgr : mkGroups (a :: rest) [] = [] := by
      unfold mkGroups groupby_level0 dedupFirst dedupFirstAux
      split <;> simp
    rw [hgr]
    rfl

theorem dim_fold_eq_pairs_fold :
    ∀ (ds : List Dimension) (acc : List (String × Dimension)),
      ds.foldl (fun m d => dictInsert m (format_dimension_key d.key) d) acc
      = (ds.map (fun d => (format_dimension_key d.key, d))).foldl
          (fun m p => dictInsert m p.1 p.2) acc := by
  intro ds
  induction ds with
  | nil => intro acc; rfl
  | cons a as ih => intro acc; simpa using ih (dictInsert acc (format_dimension_key a.key) a)

theorem dim_headers_ok (df : Frame) (dims : List Dimension)
    (hri : df.rangeIndex = false)
    (hdim : ∀ nm? ∈ df.rowNames, ∃ d ∈ dims ++ [metricsDim],
      nm? = some (format_dimension_key d.key)) :
    ∃ dimCols, transform_dimension_column_headers df dims = Except.ok dimCols
      ∧ dimCols.length = df.rowNames.length := by
  unfold transform_dimension_column_headers
  rw [hri]
  simp only [Bool.false_eq_true, if_false]
  refine Exists.imp (fun ys h => ⟨h, list_mapM_ok_length h⟩) ?_
  apply list_mapM_ok_of_forall
  intro nm? hmem
  obtain ⟨d, hd, hnm⟩ := hdim nm? hmem
  subst hnm
  dsimp only
  have hkey : format_dimension_key d.key ∈
      ((dims ++ [metricsDim]).foldl
        (fun m d => dictInsert m (format_dimension_key d.key) d) []).map Prod.fst := by
    rw [dim_fold_eq_pairs_fold, fold_dictInsert_keys]
    right
    have : (format_dimension_key d.key, d)
        ∈ (dims ++ [metricsDim]).map (fun d => (format_dimension_key d.key, d)) :=
      List.mem_map_of_mem _ hd
    exact List.mem_map_of_mem Prod.fst this
  have hsome := alookup_isSome_of_mem _ _ hkey
  obtain ⟨dd, hdd⟩ := Option.isSome_iff_exists.mp hsome
  rw [hdd]
  exact ⟨_, rfl⟩

theorem getD_mem_of_lt {α : Type} (l : List α) (i : Nat) (d : α) (h : i < l.length) :
    l.getD i d ∈ l := by
  cases hg : l.get? i with
  | none =>
    rw [List.get?_eq_none] at hg
    omega
  | some x =>
    rw [list_getD_of_get? l i x d hg]
    exact List.get?_mem hg

theorem pivot_zero_rows (f : Frame) (keys : List String)
    (hz : f.rows = []) (hzd : f.data = []) (hcn : f.colNames ≠ []) :
    (pivot_data_frame f keys false).rows = []
    ∧ (pivot_data_frame f keys false).data = []
    ∧ (pivot_data_frame f keys false).rangeIndex = f.rangeIndex
    ∧ (∀ nm? ∈ (pivot_data_frame f keys false).rowNames, nm? ∈ f.rowNames)
    ∧ (pivot_data_frame f keys false).colNames ≠ []
    ∧ (pivot_data_frame f keys false = f ∨ (pivot_data_frame f keys false).cols = []) := by
  unfold pivot_data_frame
  by_cases hk : keys = [] ∧ false = false
  · rw [if_pos hk]
    exact ⟨hz, hzd, rfl, fun _ h => h, hcn, Or.inl rfl⟩
  · rw [if_neg hk]
    by_cases hp : keys.filter (fun k => f.rowNames.contains (some k)) = []
    · simp only [hp, eq_self_iff_true, if_true, Bool.false_eq_true, if_false]
      exact ⟨hz, hzd, trivial, fun _ h => h, hcn, Or.inl trivial⟩
    · simp only [hp, if_false, Bool.false_eq_true]
      refine ⟨?_, ?_, trivial, ?_, ?_, Or.inr ?_⟩
      · simp [hz, dedupTuples, dedupTuplesAux]
      · simp [hz, dedupTuples, dedupTuplesAux]
      · intro nm? hmem
        simp only [List.mem_map] at hmem
        obtain ⟨i, hi, hval⟩ := hmem
        rw [List.mem_filter] at hi
        have hlt : i < f.rowNames.length := List.mem_range.mp hi.1
        rw [← hval]
        exact getD_mem_of_lt _ _ _ hlt
      · simp [hcn]
      · simp [hz, dedupTuples, dedupTuplesAux]

theorem transform_eval (items : List MetricDef) (refs : List Reference)
    (pivotDims : List String) (transpose : Bool)
    (strftime : String → Scalar → Scalar) (dims : List Dimension)
    (data_frame df0 : Frame) (ddv : DDV) (df2 : Frame)
    (dimCols metCols : List HNode) (data : List Record)
    (h1 : select_columns data_frame
      (df_dimension_columns_of dims ++ df_metric_columns_of items refs) = Except.ok df0)
    (h2 : map_display_values (clean_frame df0) dims = Except.ok (ddv, df2))
    (h3 : transform_dimension_column_headers
      (pivot_data_frame (format_data_frame strftime df2 dims)
        (pivotDims.map format_dimension_key) transpose) dims = Except.ok dimCols)
    (h4 : transform_metric_column_headers
      (pivot_data_frame (format_data_frame strftime df2 dims)
        (pivotDims.map format_dimension_key) transpose)
      (dictInsert (item_map_of items refs) TOTALS_VALUE TotalsItem) ddv = Except.ok metCols)
    (h5 : transform_data
      (pivot_data_frame (format_data_frame strftime df2 dims)
        (pivotDims.map format_dimension_key) transpose)
      (dictInsert (item_map_of items refs) TOTALS_VALUE TotalsItem) ddv = Except.ok data) :
    transform items refs pivotDims transpose strftime dims data_frame
      = Except.ok ⟨dimCols ++ metCols, data⟩ := by
  unfold transform
  rw [h1]
  dsimp only
  rw [h2]
  dsimp only
  rw [h3]
  dsimp only
  rw [h4]
  dsimp only
  rw [h5]

theorem im0_keys_metric_form (items : List MetricDef) (refs : List Reference) (s : String)
    (h : Scalar.vStr s ∈ (item_map_of items refs).map Prod.fst) :
    ∃ k, s = format_metric_key k := by
  unfold item_map_of at h
  rw [fold_dictInsert_keys] at h
  cases h with
  | inl h => simp at h
  | inr h =>
    rw [List.mem_map] at h
    obtain ⟨p, hp, hfst⟩ := h
    rw [List.mem_flatMap] at hp
    obtain ⟨i, hi, hpi⟩ := hp
    rw [List.mem_map] at hpi
    obtain ⟨r, hr, hpr⟩ := hpi
    subst hpr
    dsimp only at hfst
    injection hfst with hs
    exact ⟨reference_key i r, hs.symm⟩

theorem metric_cols_ne_totals (items : List MetricDef) (refs : List Reference) :
    ∀ mk ∈ df_metric_columns_of items refs, Scalar.vStr mk ≠ TOTALS_VALUE := by
  intro mk hmk
  obtain ⟨k, hk⟩ := im0_keys_metric_form items refs mk (metric_key_mem_im0 items refs mk hmk)
  subst hk
  exact fmk_ne_totals k

theorem metric_cols_lookup_some (items : List MetricDef) (refs : List Reference) :
    ∀ mk ∈ df_metric_columns_of items refs,
      (alookup (dictInsert (item_map_of items refs) TOTALS_VALUE TotalsItem)
        (Scalar.vStr mk)).isSome := by
  intro mk hmk
  apply alookup_isSome_of_mem
  exact (mem_keys_dictInsert _ _ _ _).mpr (Or.inl (metric_key_mem_im0 items refs mk hmk))

theorem dim_cols_nil (dims : List Dimension)
    (hnd : ∀ d ∈ dims, d.hasDisplayField = false) :
    df_dimension_columns_of dims = [] := by
  unfold df_dimension_columns_of
  have : dims.filter (fun d => d.hasDisplayField) = [] :=
    List.filter_eq_nil.mpr (fun d hd => by simp [hnd d hd])
  rw [this]
  rfl

theorem format_zero_rows (strftime : String → Scalar → Scalar) (dims : List Dimension)
    (f : Frame) (hz : f.rows = []) :
    (format_data_frame strftime f dims).rows = [] := by
  unfold format_data_frame
  have hfold : ∀ (l : List (Nat × Dimension)),
      l.foldl (fun rs p =>
        if p.2.isDatetime
        then map_index_level rs p.1 (strftime (interval_format p.2.interval))
        else rs) [] = [] := by
    intro l
    induction l with
    | nil => rfl
    | cons a as ih =>
      have hstep : (if a.2.isDatetime
          then map_index_level [] a.1 (strftime (interval_format a.2.interval))
          else []) = ([] : List (List Scalar)) := by
        split
        · unfold map_index_level
          rfl
        · rfl
      rw [List.foldl_cons, hstep]
      exact ih
  dsimp only
  rw [hz, hfold]
  rfl

theorem transform_data_zero (df : Frame) (im : List (Scalar × Item)) (ddv : DDV)
    (hz : df.rows = []) : transform_data df im ddv = Except.ok [] := by
  unfold transform_data
  rw [hz]
  simp [List.mapM, List.mapM.loop, pure, Except.pure]

theorem select_cols_ok_of_present (f : Frame) (names : List String)
    (hcols : ∀ nm ∈ names, ∃ c ∈ f.cols, c = [Scalar.vStr nm]) :
    ∃ js, names.mapM
        (fun nm =>
          match f.cols.findIdx? (fun c => c = [Scalar.vStr nm]) with
          | some j => Except.ok j
          | Option.none => Except.error "KeyError: missing requested column") = Except.ok js := by
  apply list_mapM_ok_of_forall
  intro nm hnm
  obtain ⟨c, hc, hceq⟩ := hcols nm hnm
  have hsome : (f.cols.findIdx? (fun c => c = [Scalar.vStr nm])).isSome :=
    findIdx?_isSome_of_mem _ f.cols 0 ⟨c, hc, by simp [hceq]⟩
  obtain ⟨j, hj⟩ := Option.isSome_iff_exists.mp hsome
  rw [hj]
  exact ⟨j, rfl⟩

theorem select_cols_shape (f : Frame) (names : List String) (js : List Nat)
    (hjs : names.mapM
        (fun nm =>
          match f.cols.findIdx? (fun c => c = [Scalar.vStr nm]) with
          | some j => Except.ok j
          | Option.none => Except.error "KeyError: missing requested column") = Except.ok js) :
    js.map (fun j => f.cols.getD j []) = names.map (fun nm => [Scalar.vStr nm]) := by
  apply List.ext
  intro n
  rw [List.get?_map, List.get?_map]
  cases hn : names.get? n with
  | none =>
    have hlen := list_mapM_ok_length hjs
    have hjn : js.get? n = Option.none := by
      rw [List.get?_eq_none] at hn ⊢
      omega
    rw [hjn]
    rfl
  | some nm =>
    obtain ⟨j, hj, hstep⟩ := list_mapM_ok_get? hjs n nm hn
    rw [hj]
    cases hf : f.cols.findIdx? (fun c => c = [Scalar.vStr nm]) with
    | none =>
      rw [hf] at hstep
      exact Except.noConfusion hstep
    | some j' =>
      rw [hf] at hstep
      injection hstep with hjj
      subst hjj
      obtain ⟨-, x, hx, hpx⟩ := findIdx?_some_get? _ f.cols 0 j' hf
      rw [Nat.sub_zero] at hx
      have hxe : x = [Scalar.vStr nm] := of_decide_eq_true hpx
      subst hxe
      show some (f.cols.getD j' []) = _
      rw [list_getD_of_get? f.cols j' _ [] hx]
      rfl

theorem zero_row_stage (items : List MetricDef) (refs : List Reference)
    (strftime : String → Scalar → Scalar) (dims : List Dimension)
    (f DF0 DF3 : Frame) (ddv0 : DDV)
    (hsel : select_columns f
      (df_dimension_columns_of dims ++ df_metric_columns_of items refs) = Except.ok DF0)
    (hmdv : map_display_values (clean_frame DF0) dims = Except.ok (ddv0, clean_frame DF0))
    (hDF3 : format_data_frame strftime (clean_frame DF0) dims = DF3)
    (hrows3 : DF3.rows = []) (hdata3 : DF3.data = [])
    (hnm3 : DF3.name = Option.none) (hri3 : DF3.rangeIndex = false)
    (hcn3 : DF3.colNames = [some metrics_dimension_key])
    (hcols3 : DF3.cols = (df_metric_columns_of items refs).map (fun mk => [Scalar.vStr mk]))
    (hdim3 : ∀ nm? ∈ DF3.rowNames, ∃ d ∈ dims ++ [metricsDim],
      nm? = some (format_dimension_key d.key)) :
    (∀ pks : List String, ∃ out : RTResult,
        transform items refs pks false strftime dims f = Except.ok out ∧ out.data = [])
    ∧ (∃ dimCols metCols : List HNode,
        transform items refs [] false strftime dims f = Except.ok ⟨dimCols ++ metCols, []⟩
        ∧ dimCols.length = DF3.rowNames.length
        ∧ metCols.length = (df_metric_columns_of items refs).length
        ∧ ∀ (k : Nat) (mk : String), (df_metric_columns_of items refs).get? k = some mk →
            ∃ it : Item,
              alookup (dictInsert (item_map_of items refs) TOTALS_VALUE TotalsItem)
                (Scalar.vStr mk) = some it
              ∧ metCols.get? k
                = some (HNode.mk it.label (some mk) Option.none Option.none)) := by
  constructor
  · intro pks
    have hcnne : DF3.colNames ≠ [] := fun h => List.cons_ne_nil _ _ (hcn3.symm.trans h)
    obtain ⟨h4rows, h4data, h4ri, h4rn, h4cn, h4disj⟩ :=
      pivot_zero_rows DF3 (pks.map format_dimension_key) hrows3 hdata3 hcnne
    obtain ⟨dimCols, hdimok, -⟩ := dim_headers_ok
      (pivot_data_frame DF3 (pks.map format_dimension_key) false) dims
      (h4ri.trans hri3)
      (fun nm? hmem => hdim3 nm? (h4rn nm? hmem))
    obtain ⟨metCols3, hmc3, hlen3, hget3⟩ := metric_flat_headers
      (dictInsert (item_map_of items refs) TOTALS_VALUE TotalsItem) ddv0
      (df_metric_columns_of items refs)
      (metric_cols_lookup_some items refs) (metric_cols_ne_totals items refs)
    have hmet3 : transform_metric_column_headers DF3
        (dictInsert (item_map_of items refs) TOTALS_VALUE TotalsItem) ddv0
        = Except.ok metCols3 := by
      unfold transform_metric_column_headers
      rw [hcols3, hnm3, hcn3]
      exact hmc3
    have hmet4ex : ∃ metCols, transform_metric_column_headers
        (pivot_data_frame DF3 (pks.map format_dimension_key) false)
        (dictInsert (item_map_of items refs) TOTALS_VALUE TotalsItem) ddv0
        = Except.ok metCols := by
      cases h4disj with
      | inl heq => exact ⟨metCols3, by rw [heq]; exact hmet3⟩
      | inr hc =>
        refine ⟨[], ?_⟩
        unfold transform_metric_column_headers
        rw [hc]
        exact makeCols_empty_tuples _ ddv0 _ _ h4cn []
    obtain ⟨metCols, hmet4⟩ := hmet4ex
    have hdat4 : transform_data (pivot_data_frame DF3 (pks.map format_dimension_key) false)
        (dictInsert (item_map_of items refs) TOTALS_VALUE TotalsItem) ddv0 = Except.ok [] :=
      transform_data_zero _ _ _ h4rows
    rw [← hDF3] at hdimok hmet4 hdat4
    exact ⟨⟨dimCols ++ metCols, []⟩,
      transform_eval items refs pks false strftime dims f DF0 ddv0 (clean_frame DF0)
        dimCols metCols [] hsel hmdv hdimok hmet4 hdat4, rfl⟩
  · have hpivid : pivot_data_frame DF3 (List.map format_dimension_key []) false = DF3 := by
      unfold pivot_data_frame
      rw [if_pos ⟨rfl, rfl⟩]
    obtain ⟨dimCols0, hdimok0, hdimlen0⟩ := dim_headers_ok DF3 dims hri3 hdim3
    obtain ⟨metCols3, hmc3, hlen3, hget3⟩ := metric_flat_headers
      (dictInsert (item_map_of items refs) TOTALS_VALUE TotalsItem) ddv0
      (df_metric_columns_of items refs)
      (metric_cols_lookup_some items refs) (metric_cols_ne_totals items refs)
    have hmet3 : transform_metric_column_headers DF3
        (dictInsert (item_map_of items refs) TOTALS_VALUE TotalsItem) ddv0
        = Except.ok metCols3 := by
      unfold transform_metric_column_headers
      rw [hcols3, hnm3, hcn3]
      exact hmc3
    have hdimok4 : transform_dimension_column_headers
        (pivot_data_frame DF3 (List.map format_dimension_key []) false) dims
        = Except.ok dimCols0 := by
      rw [hpivid]
      exact hdimok0
    have hmet4 : transform_metric_column_headers
        (pivot_data_frame DF3 (List.map format_dimension_key []) false)
        (dictInsert (item_map_of items refs) TOTALS_VALUE TotalsItem) ddv0
        = Except.ok metCols3 := by
      rw [hpivid]
      exact hmet3
    have hdat4 : transform_data (pivot_data_frame DF3 (List.map format_dimension_key []) false)
        (dictInsert (item_map_of items refs) TOTALS_VALUE TotalsItem) ddv0 = Except.ok [] := by
      rw [hpivid]
      exact transform_data_zero _ _ _ hrows3
    rw [← hDF3] at hdimok4 hmet4 hdat4
    exact ⟨dimCols0, metCols3,
      transform_eval items refs [] false strftime dims f DF0 ddv0 (clean_frame DF0)
        dimCols0 metCols3 [] hsel hmdv hdimok4 hmet4 hdat4,
      hdimlen0, hlen3, hget3⟩

/-- C3: on a zero row table the whole transform succeeds: fillna_index is
a no-op on the empty index, format_data_frame keeps the index of any zero
row frame empty, the output data list is empty for every pivot request,
and without a pivot the column definitions are the dimension headers (one
per index level) followed by one descriptor derived leaf per metric
column, its header the item map label and its accessor the column key.
Scope: no transposition, dimensions without display fields, a frame
carrying no collapse marker and a real (non range) index whose level names
are selected dimension keys, and every requested metric column present. -/
theorem C3_zero_row_no_failure
    (items : List MetricDef) (refs : List Reference)
    (strftime : String → Scalar → Scalar) (dims : List Dimension) (f : Frame)
    (hz : f.rows = []) (hzd : f.data = [])
    (hnm : f.name = Option.none) (hri : f.rangeIndex = false)
    (hnd : ∀ d ∈ dims, d.hasDisplayField = false)
    (hcols : ∀ nm ∈ df_metric_columns_of items refs, ∃ c ∈ f.cols, c = [Scalar.vStr nm])
    (hdim : ∀ nm? ∈ f.rowNames, ∃ d ∈ dims ++ [metricsDim],
      nm? = some (format_dimension_key d.key)) :
    fillna_index [] TOTALS_VALUE = []
    ∧ (∀ f' : Frame, f'.rows = [] → (format_data_frame strftime f' dims).rows = [])
    ∧ (∀ pks : List String, ∃ out : RTResult,
        transform items refs pks false strftime dims f = Except.ok out ∧ out.data = [])
    ∧ (∃ dimCols metCols : List HNode,
        transform items refs [] false strftime dims f
          = Except.ok ⟨dimCols ++ metCols, []⟩
        ∧ dimCols.length = f.rowNames.length
        ∧ metCols.length = (df_metric_columns_of items refs).length
        ∧ ∀ (k : Nat) (mk : String),
            (df_metric_columns_of items refs).get? k = some mk →
            ∃ it : Item,
              alookup (dictInsert (item_map_of items refs) TOTALS_VALUE TotalsItem)
                (Scalar.vStr mk) = some it
              ∧ metCols.get? k
                = some (HNode.mk it.label (some mk) Option.none Option.none)) := by
  have hdimnil : df_dimension_columns_of dims = [] := dim_cols_nil dims hnd
  have hcols' : ∀ nm ∈ df_dimension_columns_of dims ++ df_metric_columns_of items refs,
      ∃ c ∈ f.cols, c = [Scalar.vStr nm] := by
    rw [hdimnil]
    simpa using hcols
  obtain ⟨js, hjs⟩ := select_cols_ok_of_present f _ hcols'
  have hshape := select_cols_shape f _ js hjs
  rw [hdimnil, List.nil_append] at hshape
  have hsel : select_columns f
      (df_dimension_columns_of dims ++ df_metric_columns_of items refs)
      = Except.ok { f with
          cols := js.map (fun j => f.cols.getD j []),
          data := f.data.map (fun r => js.map (fun j => r.getD j Scalar.vNone)) } := by
    unfold select_columns
    rw [hjs]
  obtain ⟨ddv0, hmdv0⟩ := mdv_no_display dims hnd
    ([], clean_frame { f with
        cols := js.map (fun j => f.cols.getD j []),
        data := f.data.map (fun r => js.map (fun j => r.getD j Scalar.vNone)) })
  have hmdv : map_display_values
      (clean_frame { f with
        cols := js.map (fun j => f.cols.getD j []),
        data := f.data.map (fun r => js.map (fun j => r.getD j Scalar.vNone)) }) dims
      = Except.ok (ddv0, clean_frame { f with
          cols := js.map (fun j => f.cols.getD j []),
          data := f.data.map (fun r => js.map (fun j => r.getD j Scalar.vNone)) }) := hmdv0
  have hdata3 : (format_data_frame strftime
      (clean_frame { f with
        cols := js.map (fun j => f.cols.getD j []),
        data := f.data.map (fun r => js.map (fun j => r.getD j Scalar.vNone)) }) dims).data
      = [] := by
    have h0 : (format_data_frame strftime
        (clean_frame { f with
          cols := js.map (fun j => f.cols.getD j []),
          data := f.data.map (fun r => js.map (fun j => r.getD j Scalar.vNone)) }) dims).data
        = (f.data.map (fun r => js.map (fun j => r.getD j Scalar.vNone))).map
            (fun r => r.map clean_cell) := rfl
    rw [h0, hzd]
    rfl
  obtain ⟨hall, hnil⟩ := zero_row_stage items refs strftime dims f _ _ ddv0 hsel hmdv rfl
    (format_zero_rows strftime dims _ hz) hdata3 hnm hri rfl hshape hdim
  exact ⟨rfl, fun f' hzf => format_zero_rows strftime dims f' hzf, hall, hnil⟩

theorem C3_zero_row_no_failure_witness :
    ((⟨[some "$d$party"], [], [Option.none], [[Scalar.vStr "$m$votes"]], [], false,
        Option.none⟩ : Frame).rows = [])
    ∧ (∃ out : RTResult,
        transform [⟨"votes", "Votes", Option.none, Option.none, Option.none⟩] []
          ["party"] false (fun _ v => v)
          [⟨"party", "Party", false, "", Option.none, false, ""⟩]
          ⟨[some "$d$party"], [], [Option.none], [[Scalar.vStr "$m$votes"]], [], false,
            Option.none⟩
          = Except.ok out ∧ out.data = []) :=
  ⟨rfl,
    (C3_zero_row_no_failure
      [⟨"votes", "Votes", Option.none, Option.none, Option.none⟩] []
      (fun _ v => v)
      [⟨"party", "Party", false, "", Option.none, false, ""⟩]
      ⟨[some "$d$party"], [], [Option.none], [[Scalar.vStr "$m$votes"]], [], false,
        Option.none⟩
      rfl rfl rfl rfl (by decide) (by decide) (by decide)).2.2.1 ["party"]⟩
